import Mathlib

/-
Verification of the byo-map track-and-trace core against its design notes.

The development shallowly embeds the two Python packages of the repository:

* `Conversion` — kml-conversion/conversion/clean.py (geometry cleaner:
  `tweeze`, `lint_roll`, and the property-grouping of `clean_geometries`);
* `Routing` — routing/routing/{__init__,lambda_handler,prepare}.py
  (`split_graph`, `remap_missing_nodes`, `get_exclusion_areas`,
  `prefetch_geofences`, `handle`, `make_edges`, `cluster`).

Coordinates are embedded as exact rationals.  Operations performed by the
external geometry / GIS libraries (shapely, GEOS, pyproj, networkx, boto3)
are modelled as explicit oracle parameters (`GeomOps`, projection functions):
the repository's own control flow and data manipulation is embedded
faithfully, while the library kernels stay abstract.  Python exceptions are
modelled with `Except`: `PyExc.lambdaEx` is the repository's
`LambdaException`, `PyExc.err` any other Python exception.
-/

namespace ByoMap

/-- Geographic or metric coordinate (x, y) with exact rational components. -/
abbrev Coord : Type := ℚ × ℚ

/-- LineString geometry: the ordered list of its coordinates. -/
abbrev Line : Type := List Coord

/-- Python `round(q, 2)` as used for edge lengths.  (Python rounds ties to
even, this model rounds ties up; no statement below depends on ties.) -/
def round2 (q : ℚ) : ℚ := (round (q * 100) : ℤ) / 100

/-! ## Conversion: kml-conversion/conversion/clean.py -/

namespace Conversion

/-- Polygon: an exterior ring and a list of interior rings (holes); rings are
closed coordinate lists. -/
structure Poly where
  exterior : List Coord
  interiors : List (List Coord)
deriving DecidableEq

/-- A simple (non-collection) shapely geometry, as handled by `tweeze` and
`lint_roll`.  The cleaner's collections only contain simple members, so
nested collections are not represented. -/
inductive Prim where
  | point (c : Coord)
  | lineString (coords : List Coord)
  | polygon (p : Poly)
  | multiPolygon (ps : List Poly)
deriving DecidableEq

/-- A shapely geometry reaching `tweeze`/`lint_roll`: a simple geometry or a
GeometryCollection of simple geometries. -/
inductive Geometry where
  | prim (g : Prim)
  | collection (gs : List Prim)
deriving DecidableEq

/-- Twice the signed shoelace sum of a closed ring. -/
def shoelaceSum : List Coord → ℚ
  | p :: q :: rest => (p.1 * q.2 - q.1 * p.2) + shoelaceSum (q :: rest)
  | _ => 0

/-- Area of the polygon built from one closed ring (`Polygon(interior).area`):
absolute shoelace value halved. -/
def ringArea (ring : List Coord) : ℚ := |shoelaceSum ring| / 2

/-- clean.py line 24: `sliver_threshold = 1e-10`. -/
def sliver_threshold : ℚ := 1 / 10 ^ 10

/-- clean.py lines 31-38, the Polygon case of `tweeze`: keep exactly the
interior rings whose area exceeds `sliver_threshold`. -/
def tweezePoly (p : Poly) : Poly :=
  { exterior := p.exterior
    interiors := p.interiors.filter fun interior => sliver_threshold < ringArea interior }

/-- The action of `tweeze` on a simple geometry (Polygon and MultiPolygon
cases of clean.py lines 31-41; other geometries returned unchanged). -/
def tweezePrim : Prim → Prim
  | .polygon p => .polygon (tweezePoly p)
  | .multiPolygon ps => .multiPolygon (ps.map tweezePoly)
  | g => g

/-- clean.py lines 27-46: `tweeze`, removing polygon slivers, recursing into
MultiPolygons and GeometryCollections. -/
def tweeze : Geometry → Geometry
  | .prim g => .prim (tweezePrim g)
  | .collection gs => .collection (gs.map tweezePrim)

/-- Whether a collection member is a Polygon (`isinstance(x, Polygon)`). -/
def isPolygon : Prim → Bool
  | .polygon _ => true
  | _ => false

/-- Whether a collection member is a LineString (`isinstance(x, LineString)`). -/
def isLineString : Prim → Bool
  | .lineString _ => true
  | _ => false

/-- Extract the payload of a Polygon member. -/
def toPoly : Prim → Poly
  | .polygon p => p
  | _ => ⟨[], []⟩

/-- clean.py lines 49-63: `lint_roll`.  On a GeometryCollection holding both
Polygons and LineStrings it returns the Polygons only (a MultiPolygon when
more than one); every other input is returned unchanged. -/
def lint_roll (g : Geometry) : Geometry :=
  match g with
  | .collection gs =>
    match gs.filter isPolygon, gs.filter isLineString with
    | p :: ps, _ :: _ =>
      if 1 < (p :: ps).length then .prim (.multiPolygon ((p :: ps).map toPoly)) else .prim p
    | _, _ => .collection gs
  | g => g

/-- A JSON property value of a feature's property mapping. -/
inductive PropValue where
  | null
  | bool (b : Bool)
  | num (n : ℤ)
  | str (s : String)
deriving DecidableEq

/-- Python truthiness on a property value. -/
def truthyProp : PropValue → Bool
  | .null => false
  | .bool b => b
  | .num n => n != 0
  | .str s => s != ""

/-- The serialization of one property value used by `json.dumps`. -/
def dumpValue : PropValue → String
  | .null => "null"
  | .bool true => "true"
  | .bool false => "false"
  | .num n => toString n
  | .str s => "\"" ++ s ++ "\""

/-- clean.py lines 72-73, `keyfunc` body: `json.dumps(x["properties"])`.  A
property mapping is a Python dict, i.e. an insertion-ordered association list
with unique keys; `json.dumps` (without `sort_keys`) serializes the entries
in that insertion order. -/
def dumps (props : List (String × PropValue)) : String :=
  "\x7b" ++
    String.intercalate ", "
      (props.map fun kv => "\"" ++ kv.1 ++ "\": " ++ dumpValue kv.2) ++
  "\x7d"

/-- A GeoJSON feature as seen by `clean_geometries`: a property mapping in
insertion order plus a geometry. -/
structure Feature where
  properties : List (String × PropValue)
  geometry : Geometry
deriving DecidableEq

/-- clean.py line 79: `x["properties"].get("visibility", True)` is truthy. -/
def visible (f : Feature) : Bool :=
  truthyProp ((f.properties.lookup "visibility").getD (.bool true))

/-- The grouping key of a feature (clean.py lines 72-73). -/
def keyfunc (f : Feature) : String := dumps f.properties

end Conversion

/-! ### List helpers modelling the Python standard library -/

/-- Stable insertion of `x` in front of the first element `y` with
`le x y`. -/
def insertSorted {α : Type} (le : α → α → Bool) (x : α) : List α → List α
  | [] => [x]
  | y :: ys => if le x y then x :: y :: ys else y :: insertSorted le x ys

/-- Python's stable `sorted`: insertion sort, which agrees with any stable
sort for a total preorder. -/
def pySorted {α : Type} (le : α → α → Bool) (l : List α) : List α :=
  l.foldr (insertSorted le) []

/-- Python's `itertools.groupby`: split a list into maximal runs of
consecutive elements sharing a key, tagging each run with its key. -/
def groupRuns {α κ : Type} [DecidableEq κ] (key : α → κ) : List α → List (κ × List α)
  | [] => []
  | x :: xs =>
    match groupRuns key xs with
    | [] => [(key x, [x])]
    | (k, g) :: rest =>
      if key x = k then (k, x :: g) :: rest else (key x, [x]) :: (k, g) :: rest

/-- Code-point lexicographic comparison of character lists, the order Python
uses to compare strings. -/
def charListLe : List Char → List Char → Bool
  | [], _ => true
  | _ :: _, [] => false
  | a :: as, b :: bs =>
    if a.toNat < b.toNat then true
    else if b.toNat < a.toNat then false
    else charListLe as bs

/-- Python's `<=` on strings: code-point lexicographic order. -/
def strLe (a b : String) : Bool := charListLe a.data b.data

namespace Conversion

/-- clean.py lines 77-83: drop invisible features, sort by the serialized
property mapping, and group consecutive runs of equal serializations.  Each
resulting group is emitted as one output feature. -/
def cleanGroups (features : List Feature) : List (String × List Feature) :=
  groupRuns keyfunc
    (pySorted (fun a b => strLe (keyfunc a) (keyfunc b)) (features.filter visible))

end Conversion

end ByoMap

namespace ByoMap

namespace Conversion

/-! ### Theorems for claims C9 and C10 -/

theorem tweezePoly_idem (p : Poly) : tweezePoly (tweezePoly p) = tweezePoly p := by
  simp [tweezePoly, List.filter_filter]

theorem tweezePrim_idem (g : Prim) : tweezePrim (tweezePrim g) = tweezePrim g := by
  cases g with
  | polygon p => simp [tweezePrim, tweezePoly_idem]
  | multiPolygon ps =>
      simp only [tweezePrim, List.map_map]
      congr 1
      exact List.map_congr_left fun p _ => tweezePoly_idem p
  | point c => rfl
  | lineString l => rfl

/-- C9: the sliver-removal function `tweeze` is idempotent: for every geometry
`g`, `tweeze (tweeze g)` equals `tweeze g`. -/
theorem tweeze_idempotent (g : Geometry) : tweeze (tweeze g) = tweeze g := by
  cases g with
  | prim p => simp [tweeze, tweezePrim_idem]
  | collection gs =>
      simp only [tweeze, List.map_map]
      congr 1
      exact List.map_congr_left fun p _ => tweezePrim_idem p

/-- C10: on a GeometryCollection with at least one Polygon member and at least
one LineString member, `lint_roll` keeps exactly the Polygon members — the
single Polygon when there is one, a MultiPolygon of them when several — and
discards every non-Polygon member (LineStrings, Points, ...).  On every other
input (collections missing a Polygon or missing a LineString, and
non-collection geometries) it returns the input unchanged. -/
theorem lint_roll_spec (g : Geometry) :
    (∀ gs, g = .collection gs →
      (((∃ p ∈ gs, isPolygon p) ∧ (∃ l ∈ gs, isLineString l)) →
        lint_roll g =
          (if 1 < (gs.filter isPolygon).length
           then .prim (.multiPolygon ((gs.filter isPolygon).map toPoly))
           else .prim ((gs.filter isPolygon).headD (.point (0, 0)))))
      ∧ ((¬ (∃ p ∈ gs, isPolygon p)) ∨ (¬ (∃ l ∈ gs, isLineString l)) →
          lint_roll g = g))
    ∧ (∀ g', g = .prim g' → lint_roll g = g) := by
  constructor
  · rintro gs rfl
    constructor
    · rintro ⟨⟨p, hp, hpP⟩, ⟨l, hl, hlL⟩⟩
      have h1 : gs.filter isPolygon ≠ [] := by
        intro hnil
        exact absurd (List.mem_filter.mpr ⟨hp, hpP⟩) (by simp [hnil])
      have h2 : gs.filter isLineString ≠ [] := by
        intro hnil
        exact absurd (List.mem_filter.mpr ⟨hl, hlL⟩) (by simp [hnil])
      obtain ⟨p0, ps, hps⟩ := List.exists_cons_of_ne_nil h1
      obtain ⟨l0, ls, hls⟩ := List.exists_cons_of_ne_nil h2
      simp only [lint_roll, hps, hls, List.headD]
    · rintro (hnp | hnl)
      · have h1 : gs.filter isPolygon = [] := by
          rw [List.filter_eq_nil_iff]
          intro a ha hP
          exact hnp ⟨a, ha, hP⟩
        cases h2 : gs.filter isLineString with
        | nil => simp only [lint_roll, h1, h2]
        | cons l0 ls => simp only [lint_roll, h1, h2]
      · have h2 : gs.filter isLineString = [] := by
          rw [List.filter_eq_nil_iff]
          intro a ha hL
          exact hnl ⟨a, ha, hL⟩
        cases h1 : gs.filter isPolygon with
        | nil => simp only [lint_roll, h1, h2]
        | cons p0 ps => simp only [lint_roll, h1, h2]
  · rintro g' rfl
    rfl

/-- Concrete instance of `lint_roll_spec`: a collection holding a Polygon, a
LineString and a Point reduces to the Polygon alone; a bare Point is left
unchanged. -/
theorem lint_roll_spec_witness :
    lint_roll (.collection
        [.polygon ⟨[(0, 0), (1, 0), (0, 1), (0, 0)], []⟩,
         .lineString [(5, 5), (6, 6)],
         .point (2, 2)]) =
      .prim (.polygon ⟨[(0, 0), (1, 0), (0, 1), (0, 0)], []⟩) ∧
    lint_roll (.prim (.point (7, 7))) = .prim (.point (7, 7)) := by
  constructor
  · have h := ((lint_roll_spec (.collection
        [.polygon ⟨[(0, 0), (1, 0), (0, 1), (0, 0)], []⟩,
         .lineString [(5, 5), (6, 6)],
         .point (2, 2)])).1 _ rfl).1
      ⟨⟨.polygon ⟨[(0, 0), (1, 0), (0, 1), (0, 0)], []⟩, by simp, by decide⟩,
       ⟨.lineString [(5, 5), (6, 6)], by simp, by decide⟩⟩
    simpa using h
  · exact (lint_roll_spec (.prim (.point (7, 7)))).2 _ rfl

end Conversion

/-! ### Lemmas about the stable-sort and run-grouping models -/

theorem mem_insertSorted {α : Type} (le : α → α → Bool) (x a : α) (l : List α) :
    a ∈ insertSorted le x l ↔ a = x ∨ a ∈ l := by
  induction l with
  | nil => simp [insertSorted]
  | cons y ys ih =>
      by_cases h : le x y
      · simp [insertSorted, h]
      · simp only [insertSorted, h, if_neg, Bool.false_eq_true, ite_false, List.mem_cons, ih]
        tauto

theorem pairwise_insertSorted {α : Type} (le : α → α → Bool)
    (htot : ∀ a b, le a b = true ∨ le b a = true)
    (htrans : ∀ a b c, le a b = true → le b c = true → le a c = true)
    (x : α) (l : List α) (hl : l.Pairwise fun a b => le a b = true) :
    (insertSorted le x l).Pairwise fun a b => le a b = true := by
  induction l with
  | nil => simp [insertSorted]
  | cons y ys ih =>
      rcases List.pairwise_cons.mp hl with ⟨hy, hys⟩
      by_cases h : le x y
      · rw [insertSorted, if_pos h]
        refine List.pairwise_cons.mpr ⟨?_, hl⟩
        intro z hz
        rcases List.mem_cons.mp hz with rfl | hz'
        · exact h
        · exact htrans x y z h (hy z hz')
      · rw [insertSorted, if_neg h]
        refine List.pairwise_cons.mpr ⟨?_, ih hys⟩
        intro z hz
        rcases (mem_insertSorted le x z ys).mp hz with hzx | hz'
        · rw [hzx]
          rcases htot x y with hxy | hyx
          · exact absurd hxy h
          · exact hyx
        · exact hy z hz'

theorem mem_pySorted {α : Type} (le : α → α → Bool) (l : List α) (a : α) :
    a ∈ pySorted le l ↔ a ∈ l := by
  induction l with
  | nil => simp [pySorted]
  | cons x xs ih =>
      show a ∈ insertSorted le x (pySorted le xs) ↔ _
      rw [mem_insertSorted, ih]
      simp

theorem pairwise_pySorted {α : Type} (le : α → α → Bool)
    (htot : ∀ a b, le a b = true ∨ le b a = true)
    (htrans : ∀ a b c, le a b = true → le b c = true → le a c = true)
    (l : List α) :
    (pySorted le l).Pairwise fun a b => le a b = true := by
  induction l with
  | nil => simp [pySorted]
  | cons x xs ih => exact pairwise_insertSorted le htot htrans x _ ih

theorem groupRuns_cons {α κ : Type} [DecidableEq κ] (key : α → κ) (x : α) (xs : List α) :
    groupRuns key (x :: xs) =
      match groupRuns key xs with
      | [] => [(key x, [x])]
      | (k, g) :: rest =>
        if key x = k then (k, x :: g) :: rest else (key x, [x]) :: (k, g) :: rest := rfl

theorem groupRuns_eq_span {α κ : Type} [DecidableEq κ] (key : α → κ) :
    ∀ (xs : List α) (x : α),
      groupRuns key (x :: xs) =
        (key x, x :: xs.takeWhile fun y => decide (key y = key x)) ::
          groupRuns key (xs.dropWhile fun y => decide (key y = key x)) := by
  intro xs
  induction xs with
  | nil => intro x; rfl
  | cons y ys ih =>
      intro x
      rw [groupRuns_cons key x (y :: ys)]
      rw [ih y]
      dsimp only
      by_cases h : key x = key y
      · rw [if_pos h]
        have hp : (fun z => decide (key z = key x)) = fun z => decide (key z = key y) := by
          rw [h]
        rw [List.takeWhile_cons_of_pos (by simp [h]), List.dropWhile_cons_of_pos (by simp [h])]
        rw [hp, h]
      · rw [if_neg h]
        have hyx : (decide (key y = key x)) = false := by
          simp only [decide_eq_false_iff_not]
          exact fun hc => h hc.symm
        rw [List.takeWhile_cons_of_neg (by simp [hyx]),
          List.dropWhile_cons_of_neg (by simp [hyx])]
        rw [← ih y]

theorem groupRuns_key_eq {α κ : Type} [DecidableEq κ] (key : α → κ) :
    ∀ (l : List α), ∀ kg ∈ groupRuns key l, ∀ a ∈ kg.2, key a = kg.1 := by
  have main : ∀ (n : ℕ) (l : List α), l.length ≤ n →
      ∀ kg ∈ groupRuns key l, ∀ a ∈ kg.2, key a = kg.1 := by
    intro n
    induction n with
    | zero =>
        intro l hlen kg hkg
        have : l = [] := List.length_eq_zero.mp (Nat.le_zero.mp hlen)
        subst this
        cases hkg
    | succ n ih =>
        intro l hlen kg hkg a ha
        match l with
        | [] => cases hkg
        | x :: xs =>
          rw [groupRuns_eq_span] at hkg
          rcases List.mem_cons.mp hkg with rfl | hrest
          · rcases List.mem_cons.mp ha with rfl | htw
            · rfl
            · simpa using List.mem_takeWhile_imp htw
          · have hlen' : (xs.dropWhile fun y => decide (key y = key x)).length ≤ n := by
              have h1 := List.Sublist.length_le
                (List.dropWhile_sublist (l := xs) (p := fun y => decide (key y = key x)))
              simp only [List.length_cons] at hlen
              omega
            exact ih _ hlen' kg hrest a ha
  intro l
  exact main l.length l le_rfl

theorem charListLe_total : ∀ (as bs : List Char),
    charListLe as bs = true ∨ charListLe bs as = true := by
  intro as
  induction as with
  | nil => intro bs; left; rfl
  | cons a as ih =>
      intro bs
      cases bs with
      | nil => right; rfl
      | cons b bs =>
          rcases Nat.lt_trichotomy a.toNat b.toNat with h | h | h
          · left; simp [charListLe, h]
          · have h1 : ¬ a.toNat < b.toNat := by omega
            have h2 : ¬ b.toNat < a.toNat := by omega
            rcases ih bs with hl | hr
            · left; simp [charListLe, h1, h2, hl]
            · right; simp [charListLe, h1, h2, hr]
          · right; simp [charListLe, h]

theorem charListLe_trans : ∀ (as bs cs : List Char),
    charListLe as bs = true → charListLe bs cs = true → charListLe as cs = true := by
  intro as
  induction as with
  | nil => intro bs cs _ _; rfl
  | cons a as ih =>
      intro bs cs hab hbc
      cases bs with
      | nil => simp [charListLe] at hab
      | cons b bs =>
          cases cs with
          | nil => simp [charListLe] at hbc
          | cons c cs =>
              simp only [charListLe] at hab hbc ⊢
              by_cases h1 : a.toNat < b.toNat
              · by_cases h2 : b.toNat < c.toNat
                · simp [show a.toNat < c.toNat by omega]
                · rcases (by simpa [h2] using hbc : ¬ c.toNat < b.toNat ∧ _) with ⟨h3, _⟩
                  simp [show a.toNat < c.toNat by omega]
              · rcases (by simpa [h1] using hab : ¬ b.toNat < a.toNat ∧ _) with ⟨h1', hab'⟩
                have hae : a.toNat = b.toNat := by omega
                by_cases h2 : b.toNat < c.toNat
                · simp [show a.toNat < c.toNat by omega]
                · rcases (by simpa [h2] using hbc : ¬ c.toNat < b.toNat ∧ _) with ⟨h2', hbc'⟩
                  have hbe : b.toNat = c.toNat := by omega
                  simp [show ¬ a.toNat < c.toNat by omega, show ¬ c.toNat < a.toNat by omega,
                    ih bs cs hab' hbc']

theorem charListLe_antisymm : ∀ (as bs : List Char),
    charListLe as bs = true → charListLe bs as = true → as = bs := by
  intro as
  induction as with
  | nil =>
      intro bs _ hba
      cases bs with
      | nil => rfl
      | cons b bs => simp [charListLe] at hba
  | cons a as ih =>
      intro bs hab hba
      cases bs with
      | nil => simp [charListLe] at hab
      | cons b bs =>
          simp only [charListLe] at hab hba
          by_cases h1 : a.toNat < b.toNat
          · simp [show ¬ b.toNat < a.toNat by omega, h1] at hba
          · by_cases h2 : b.toNat < a.toNat
            · simp [h1, h2] at hab
            · have hae : a.toNat = b.toNat := by omega
              have ha : a = b := Char.ext (UInt32.ext hae)
              rcases (by simpa [h1, h2] using hab : charListLe as bs = true) with hab'
              rcases (by simpa [h1, h2] using hba : charListLe bs as = true) with hba'
              rw [ha, ih bs hab' hba']

theorem strLe_total (a b : String) : strLe a b = true ∨ strLe b a = true :=
  charListLe_total a.data b.data

theorem strLe_trans (a b c : String) :
    strLe a b = true → strLe b c = true → strLe a c = true :=
  charListLe_trans a.data b.data c.data

theorem strLe_antisymm (a b : String) :
    strLe a b = true → strLe b a = true → a = b := fun h1 h2 =>
  String.ext (charListLe_antisymm a.data b.data h1 h2)

theorem mem_takeWhile_key_of_sorted {α κ : Type} [DecidableEq κ] (key : α → κ)
    (le : κ → κ → Bool) (hanti : ∀ a b, le a b = true → le b a = true → a = b) :
    ∀ (xs : List α) (x : α),
      ((x :: xs).Pairwise fun a b => le (key a) (key b) = true) →
      ∀ a ∈ xs, key a = key x →
        a ∈ xs.takeWhile fun y => decide (key y = key x) := by
  intro xs
  induction xs with
  | nil => intro x _ a ha; cases ha
  | cons y ys ih =>
      intro x hs a ha hk
      rcases List.pairwise_cons.mp hs with ⟨hx, hs'⟩
      by_cases hy : key y = key x
      · rw [List.takeWhile_cons, if_pos (by simpa using hy)]
        rcases List.mem_cons.mp ha with rfl | ha'
        · exact List.mem_cons_self _ _
        · have hsub : (x :: ys).Pairwise fun a b => le (key a) (key b) = true := by
            refine List.Pairwise.sublist ?_ hs
            exact List.cons_sublist_cons.mpr (List.sublist_cons_self y ys)
          exact List.mem_cons_of_mem _ (ih x hsub a ha' hk)
      · exfalso
        rcases List.mem_cons.mp ha with rfl | ha'
        · exact hy hk
        · rcases List.pairwise_cons.mp hs' with ⟨hy', _⟩
          have h1 : le (key x) (key y) = true := hx y (List.mem_cons_self _ _)
          have h2 : le (key y) (key a) = true := hy' a ha'
          exact hy (hanti _ _ (hk ▸ h2) h1)

theorem groupRuns_sorted_same_key {α κ : Type} [DecidableEq κ] (key : α → κ)
    (le : κ → κ → Bool) (hanti : ∀ a b, le a b = true → le b a = true → a = b) :
    ∀ (l : List α), (l.Pairwise fun a b => le (key a) (key b) = true) →
      ∀ a ∈ l, ∀ b ∈ l, key a = key b →
        ∃ kg ∈ groupRuns key l, a ∈ kg.2 ∧ b ∈ kg.2 := by
  have main : ∀ (n : ℕ) (l : List α), l.length ≤ n →
      (l.Pairwise fun a b => le (key a) (key b) = true) →
      ∀ a ∈ l, ∀ b ∈ l, key a = key b →
        ∃ kg ∈ groupRuns key l, a ∈ kg.2 ∧ b ∈ kg.2 := by
    intro n
    induction n with
    | zero =>
        intro l hlen _ a ha
        have : l = [] := List.length_eq_zero.mp (Nat.le_zero.mp hlen)
        subst this
        cases ha
    | succ n ih =>
        intro l hlen hs a ha b hb hk
        match l with
        | [] => cases ha
        | x :: xs =>
          rw [groupRuns_eq_span]
          by_cases hx : key a = key x
          · refine ⟨(key x, x :: xs.takeWhile fun y => decide (key y = key x)),
              List.mem_cons_self _ _, ?_, ?_⟩
            · rcases List.mem_cons.mp ha with rfl | ha'
              · exact List.mem_cons_self _ _
              · exact List.mem_cons_of_mem _
                  (mem_takeWhile_key_of_sorted key le hanti xs x hs a ha' hx)
            · rcases List.mem_cons.mp hb with rfl | hb'
              · exact List.mem_cons_self _ _
              · exact List.mem_cons_of_mem _
                  (mem_takeWhile_key_of_sorted key le hanti xs x hs b hb' (hk ▸ hx))
          · have hmemdrop : ∀ c ∈ x :: xs, key c = key a →
                c ∈ xs.dropWhile fun y => decide (key y = key x) := by
              intro c hc hck
              rcases List.mem_cons.mp hc with rfl | hc'
              · exact absurd hck.symm hx
              · have := List.takeWhile_append_dropWhile
                  (fun y => decide (key y = key x)) xs
                rcases List.mem_append.mp (this ▸ hc') with htw | hdw
                · exact absurd (by simpa using List.mem_takeWhile_imp htw) (hck ▸ hx)
                · exact hdw
            have hlen' : (xs.dropWhile fun y => decide (key y = key x)).length ≤ n := by
              have h1 := List.Sublist.length_le
                (List.dropWhile_sublist (l := xs) (p := fun y => decide (key y = key x)))
              simp only [List.length_cons] at hlen
              omega
            have hs' : ((xs.dropWhile fun y => decide (key y = key x)).Pairwise
                fun a b => le (key a) (key b) = true) := by
              refine List.Pairwise.sublist ?_ hs
              exact (List.dropWhile_sublist _).trans (List.sublist_cons_self x xs)
            obtain ⟨kg, hkg, h1, h2⟩ := ih _ hlen' hs'
              a (hmemdrop a ha rfl) b (hmemdrop b hb hk.symm) hk
            exact ⟨kg, List.mem_cons_of_mem _ hkg, h1, h2⟩
  intro l
  exact main l.length l le_rfl

namespace Conversion

/-- C6 (amended): `clean_geometries` groups two visible features together
exactly when `json.dumps` serializes their property mappings to the same
string in insertion order; since `sort_keys` is not passed, this key-sorted
canonicalization claimed by the spec does not hold (see
`clean_groups_not_mapping_equal`). -/
theorem clean_groups_iff_serialization (features : List Feature) (f1 f2 : Feature)
    (h1 : f1 ∈ features) (h2 : f2 ∈ features)
    (hv1 : visible f1 = true) (hv2 : visible f2 = true) :
    (∃ kg ∈ cleanGroups features, f1 ∈ kg.2 ∧ f2 ∈ kg.2) ↔ keyfunc f1 = keyfunc f2 := by
  constructor
  · rintro ⟨kg, hkg, hf1, hf2⟩
    rw [groupRuns_key_eq keyfunc _ kg hkg f1 hf1, groupRuns_key_eq keyfunc _ kg hkg f2 hf2]
  · intro hk
    have hpw : ((pySorted (fun a b => strLe (keyfunc a) (keyfunc b))
        (features.filter visible)).Pairwise
          fun a b => strLe (keyfunc a) (keyfunc b) = true) :=
      pairwise_pySorted (fun a b => strLe (keyfunc a) (keyfunc b))
        (fun a b => strLe_total (keyfunc a) (keyfunc b))
        (fun a b c => strLe_trans (keyfunc a) (keyfunc b) (keyfunc c))
        (features.filter visible)
    have hm1 : f1 ∈ pySorted (fun a b => strLe (keyfunc a) (keyfunc b))
        (features.filter visible) := by
      rw [mem_pySorted]
      exact List.mem_filter.mpr ⟨h1, hv1⟩
    have hm2 : f2 ∈ pySorted (fun a b => strLe (keyfunc a) (keyfunc b))
        (features.filter visible) := by
      rw [mem_pySorted]
      exact List.mem_filter.mpr ⟨h2, hv2⟩
    exact groupRuns_sorted_same_key keyfunc strLe strLe_antisymm _ hpw f1 hm1 f2 hm2 hk

/-- Feature with properties inserted in the order a, b. -/
def featA : Feature := ⟨[("a", .num 1), ("b", .num 2)], .prim (.point (0, 0))⟩

/-- Feature with the same property mapping inserted in the order b, a. -/
def featB : Feature := ⟨[("b", .num 2), ("a", .num 1)], .prim (.point (0, 0))⟩

/-- C6 counterexample: `featA` and `featB` carry equal property mappings
(every key looks up to the same value) but `clean_geometries` puts them in
different groups, because `json.dumps` is called without `sort_keys` and
serializes the two insertion orders differently. -/
theorem clean_groups_not_mapping_equal :
    (∀ k, featA.properties.lookup k = featB.properties.lookup k) ∧
      ¬ ∃ kg ∈ cleanGroups [featA, featB], featA ∈ kg.2 ∧ featB ∈ kg.2 := by
  constructor
  · intro k
    by_cases ha : k = "a"
    · subst ha; decide
    · by_cases hb : k = "b"
      · subst hb; decide
      · have e1 : (k == "a") = false := by simp [ha]
        have e2 : (k == "b") = false := by simp [hb]
        simp [featA, featB, List.lookup, e1, e2]
  · decide

/-- Concrete instance of `clean_groups_iff_serialization`: two copies of the
same feature land in a common group. -/
theorem clean_groups_iff_serialization_witness :
    ∃ kg ∈ cleanGroups [featA, featA], featA ∈ kg.2 ∧ featA ∈ kg.2 := by
  exact (clean_groups_iff_serialization [featA, featA] featA featA
    (by decide) (by decide) (by decide) (by decide)).mpr rfl

end Conversion

/-! ## Routing: routing/routing/lambda_handler.py and routing/routing/__init__.py -/

namespace Routing

/-- A parsed JSON value, as produced by `json.loads` and traversed by the
request handler. -/
inductive Json where
  | null
  | bool (b : Bool)
  | num (q : ℚ)
  | str (s : String)
  | arr (items : List Json)
  | obj (fields : List (String × Json))

/-- A Python exception: either the repository's `LambdaException`
(lambda_handler.py lines 35-38) with its status and message, or any other
exception (KeyError, TypeError, IndexError, ...) with its kind and argument. -/
inductive PyExc where
  | lambdaEx (status : ℕ) (message : String)
  | err (kind : String) (msg : String)
deriving DecidableEq

/-- Python `str(e)` as interpolated into f-strings: KeyError renders its key
quoted, other exceptions render their message. -/
def pyMsg : PyExc → String
  | .lambdaEx _ m => m
  | .err "KeyError" m => "'" ++ m ++ "'"
  | .err _ m => m

/-- The HTTP-style response envelope returned by `handle`. -/
structure Response where
  statusCode : ℕ
  headers : List (String × String)
  body : String
deriving DecidableEq

/-- A graph node row: id (`osmid` index), x/y columns and point geometry. -/
structure Node where
  osmid : ℕ
  x : ℚ
  y : ℚ
  point_geom : Coord
deriving DecidableEq

/-- An edge row of the (u, v, key)-indexed edge table, with its LineString
geometry and metric length. -/
structure Edge where
  u : ℕ
  v : ℕ
  key : ℕ
  geometry : Line
  length : ℚ
deriving DecidableEq

/-- Python `d[k]` on a parsed JSON value: KeyError when the key is missing,
TypeError when the receiver is not a dict. -/
def Json.index : Json → String → Except PyExc Json
  | .obj fields, k =>
    match fields.lookup k with
    | some v => .ok v
    | none => .error (.err "KeyError" k)
  | _, _ => .error (.err "TypeError" "object is not subscriptable")

/-- Python `d.get(k, default)`: AttributeError when the receiver is not a
dict. -/
def Json.get : Json → String → Json → Except PyExc Json
  | .obj fields, k, d => .ok ((fields.lookup k).getD d)
  | _, _, _ => .error (.err "AttributeError" "no attribute get")

/-- Python truthiness of a JSON value. -/
def Json.truthy : Json → Bool
  | .null => false
  | .bool b => b
  | .num q => q != 0
  | .str s => s != ""
  | .arr items => !items.isEmpty
  | .obj fields => !fields.isEmpty

/-- Require a string (e.g. before calling `.split` on it). -/
def Json.asStr : Json → Except PyExc String
  | .str s => .ok s
  | _ => .error (.err "AttributeError" "no attribute split")

/-- Require a number (e.g. the circle radius passed to `buffer`). -/
def Json.asNum : Json → Except PyExc ℚ
  | .num q => .ok q
  | _ => .error (.err "TypeError" "not a number")

/-- Shapely `Point(*coords)` from a JSON `[lon, lat]` pair; anything else
raises. -/
def Json.asPoint : Json → Except PyExc Coord
  | .arr [.num x, .num y] => .ok (x, y)
  | _ => .error (.err "TypeError" "Point takes two coordinates")

/-- Require a JSON array (e.g. the rings unpacked into `Polygon(*polygon)`
or the `Areas` list being iterated). -/
def Json.asArr : Json → Except PyExc (List Json)
  | .arr items => .ok items
  | _ => .error (.err "TypeError" "not a list")

/-- Python `str()` as used when a JSON value is interpolated into an
f-string (shallow: containers are not rendered in full). -/
def pyStr : Json → String
  | .null => "None"
  | .bool true => "True"
  | .bool false => "False"
  | .num q => toString q
  | .str s => s
  | .arr _ => "[...]"
  | .obj _ => "\x7b...\x7d"

/-- Python `s.split(sep, maxsplit)`. -/
def pySplit (s sep : String) (maxsplit : ℕ) : List String :=
  let parts := s.splitOn sep
  if parts.length ≤ maxsplit + 1 then parts
  else parts.take maxsplit ++ [String.intercalate sep (parts.drop maxsplit)]

/-- Python `sub in s` on strings. -/
def strContains (s sub : String) : Bool := 1 < (s.splitOn sub).length

/-- Python `l[i]` with IndexError. -/
def listGet {β : Type} (l : List β) (i : ℕ) : Except PyExc β :=
  match l[i]? with
  | some x => .ok x
  | none => .error (.err "IndexError" "list index out of range")

/-- The fields produced by `parse_arn` (lambda_handler.py lines 41-57). -/
structure ArnParts where
  arn : String
  region : String
  account : String
  resource : String
  resource_type : Option String
  service : String
deriving DecidableEq

/-- lambda_handler.py lines 41-57: split an ARN into its six colon-separated
components, then split a `type/resource` or `type:resource` resource field. -/
def parse_arn (arn : String) : Except PyExc ArnParts := do
  let elements := pySplit arn ":" 5
  let a0 ← listGet elements 0
  let _a1 ← listGet elements 1
  let a2 ← listGet elements 2
  let a3 ← listGet elements 3
  let a4 ← listGet elements 4
  let a5 ← listGet elements 5
  if strContains a5 "/" then
    let parts := pySplit a5 "/" 1
    let rt ← listGet parts 0
    let res ← listGet parts 1
    pure ⟨a0, a3, a4, res, some rt, a2⟩
  else if strContains a5 ":" then
    let parts := pySplit a5 ":" 1
    let rt ← listGet parts 0
    let res ← listGet parts 1
    pure ⟨a0, a3, a4, res, some rt, a2⟩
  else
    pure ⟨a0, a3, a4, a5, none, a2⟩

/-- lambda_handler.py lines 60-78, `remap_missing_nodes`: the `remap` closure
threads `current_missing_node_id` while being mapped over the (u, v, key)
edge index in row order; every endpoint found in `removed` is replaced by the
current fresh id, which is then incremented. -/
def remapTriples (removed : List ℕ) : ℕ → List (ℕ × ℕ × ℕ) → List (ℕ × ℕ × ℕ)
  | _, [] => []
  | cur, (u, v, key) :: rest =>
    let p1 : ℕ × ℕ := if u ∈ removed then (cur, cur + 1) else (u, cur)
    let p2 : ℕ × ℕ := if v ∈ removed then (p1.2, p1.2 + 1) else (v, p1.2)
    (p1.1, p2.1, key) :: remapTriples removed p2.2 rest

/-- The external geometry / GIS kernels used by the routing code (shapely,
GEOS, pyproj, geopandas spatial joins, networkx, boto3, json), abstracted as
oracles over an abstract exclusion-geometry type `Excl`.  The repository's
own logic is embedded concretely; these operations come from libraries. -/
structure GeomOps (Excl : Type) where
  lineLocatePoint : Line → Coord → ℚ
  interpolate : Line → ℚ → Coord
  substring : Line → ℚ → ℚ → Line
  utmLength : Line → ℚ
  nearestEdge : List Edge → Coord → Edge
  bufferCircle : Coord → ℚ → Excl
  mkPolygon : List Json → Except String Excl
  diffLine : List Excl → Line → Line
  pointErased : List Excl → Coord → Bool
  shortestPath : List Node → List Edge → ℕ → ℕ → Option (List ℕ)
  routeJson : List Node → List Edge → List ℕ → String
  loads : String → Except String Json
  fetchGeofences : String → String → Except String (List Json)

/-- Membership test on a Python dict modelled as an insertion-ordered
association list. -/
def dictMem {β : Type} (d : List (String × β)) (k : String) : Bool :=
  (d.lookup k).isSome

/-- Python dict assignment `d[k] = v`: an existing key keeps its position and
gets the new value, a new key is appended. -/
def dictSet {β : Type} (d : List (String × β)) (k : String) (v : β) :
    List (String × β) :=
  if (d.lookup k).isSome then
    d.map fun kv => if kv.1 = k then (k, v) else kv
  else d ++ [(k, v)]

/-- Whether `"Arn" in x.get("Area", {})` holds for one request area
(lambda_handler.py line 89); `in` tests keys of a dict and substrings of a
string and raises for other receivers. -/
def areaHasArn (area : Json) : Except PyExc Bool := do
  let a ← area.get "Area" (.obj [])
  match a with
  | .obj fields => pure (fields.lookup "Arn").isSome
  | .str s => pure (strContains s "Arn")
  | _ => .error (.err "TypeError" "argument of type is not iterable")

/-- lambda_handler.py lines 84-92: the `(arn, parse_arn(arn))` pairs for
every area carrying an `Arn` key, in request order. -/
def collectArns : List Json → Except PyExc (List (String × ArnParts))
  | [] => pure []
  | area :: rest => do
      let has ← areaHasArn area
      if has then do
        let a ← area.index "Area"
        let arnJ ← a.index "Arn"
        let arnS ← arnJ.asStr
        let parts ← parse_arn arnS
        let tail ← collectArns rest
        pure ((arnS, parts) :: tail)
      else
        collectArns rest

/-- lambda_handler.py lines 96-103: group the referenced collections by
region, mapping each resource prefix to the `#`-stripped ARN.  `grouped` is a
defaultdict, so looking a region up inserts it. -/
def groupArns (arns : List (String × ArnParts)) :
    List (String × List (String × String)) :=
  arns.foldl
    (fun grouped pair =>
      let arn_without_id := ((pair.1.splitOn "#").headD "")
      let regionDict := (grouped.lookup pair.2.region).getD []
      let regionDict' :=
        if ¬ dictMem regionDict arn_without_id then
          dictSet regionDict (((pair.2.resource.splitOn "#").headD "")) arn_without_id
        else regionDict
      dictSet grouped pair.2.region regionDict')
    []

/-- lambda_handler.py lines 113-115: record every fetched geofence entry
under `f"{arn}#{entry['GeofenceId']}"`. -/
def addEntries (arn : String) :
    List (String × Json) → List Json → Except PyExc (List (String × Json))
  | geofences, [] => pure geofences
  | geofences, g :: gs => do
      let idJ ← g.index "GeofenceId"
      addEntries arn (dictSet geofences (arn ++ "#" ++ pyStr idJ) g) gs

/-- lambda_handler.py lines 108-121: fetch the geofence pages of every
resource of one region; a client error becomes a 500 `LambdaException`. -/
def fetchResources {Excl : Type} (o : GeomOps Excl) (region : String) :
    List (String × Json) → List (String × String) → Except PyExc (List (String × Json))
  | geofences, [] => pure geofences
  | geofences, (resource, arn) :: rest => do
      match o.fetchGeofences region resource with
      | .error _ =>
          .error (.lambdaEx 500
            ("Unable to pre-fetch geofences (" ++ region ++ " / " ++ resource ++ ")"))
      | .ok entries => do
          let geofences2 ← addEntries arn geofences entries
          fetchResources o region geofences2 rest

/-- lambda_handler.py lines 106-121: iterate the grouped regions. -/
def fetchAllRegions {Excl : Type} (o : GeomOps Excl) :
    List (String × Json) → List (String × List (String × String)) →
      Except PyExc (List (String × Json))
  | geofences, [] => pure geofences
  | geofences, (region, resources) :: rest => do
      let geofences2 ← fetchResources o region geofences resources
      fetchAllRegions o geofences2 rest

/-- lambda_handler.py lines 81-123, `prefetch_geofences`: resolve every
ARN-referencing area to its geofence entries, keyed `<arn>#<entry-id>`. -/
def prefetch_geofences {Excl : Type} (o : GeomOps Excl) (areas : List Json) :
    Except PyExc (List (String × Json)) := do
  let arns ← collectArns areas
  if arns.isEmpty then pure []
  else fetchAllRegions o [] (groupArns arns)

/-- lambda_handler.py lines 129-173, one iteration of the
`get_exclusion_areas` loop: validate the area (exactly one of Circle /
Polygon / Arn must be truthy), resolve a geofence reference, and buffer the
circle / build the polygon, returning the exclusion geometries this area
contributes. -/
def processArea {Excl : Type} (o : GeomOps Excl)
    (geofences : List (String × Json)) (area : Json) : Except PyExc (List Excl) := do
  let a ← area.get "Area" (.obj [])
  let circle0 ← a.get "Circle" .null
  let polygon0 ← a.get "Polygon" .null
  let arn0 ← a.get "Arn" .null
  if ([circle0, polygon0, arn0].filter Json.truthy).length ≠ 1 then
    .error (.lambdaEx 400
      "Only one of \x7bCircle, Polygon, Arn\x7d may be provided per Area.")
  else do
    let cp ←
      if arn0.truthy then do
        let arnS ← arn0.asStr
        let comps ← parse_arn arnS
        if comps.service ≠ "geo" then
          Except.error (.lambdaEx 400 ("Unrecognized service: " ++ comps.service))
        else
          match geofences.lookup arnS with
          | none =>
              Except.error (.lambdaEx 500 ("Unable to fetch geofence (" ++ arnS ++ ")"))
          | some geofence => do
              let geom ← geofence.index "Geometry"
              let gp ← geom.get "Polygon" .null
              if gp.truthy then pure (circle0, gp)
              else do
                let gc ← geom.get "Circle" .null
                if gc.truthy then pure (gc, polygon0)
                else pure (circle0, polygon0)
      else pure (circle0, polygon0)
    let circleRes : Except PyExc (Option Excl) := do
      if cp.1.truthy then do
        let centerJ ← cp.1.index "Center"
        let c ← centerJ.asPoint
        let radiusJ ← cp.1.index "Radius"
        let r ← radiusJ.asNum
        pure (some (o.bufferCircle c r))
      else pure none
    let circleExcl ←
      match circleRes with
      | .ok v => Except.ok v
      | .error e =>
          Except.error (.lambdaEx 400 ("Invalid Circle area: " ++ pyMsg e))
    let polyRes : Except PyExc (Option Excl) := do
      if cp.2.truthy then do
        let rings ← cp.2.asArr
        match o.mkPolygon rings with
        | .ok p => pure (some p)
        | .error m => Except.error (.err "ValueError" m)
      else pure none
    let polyExcl ←
      match polyRes with
      | .ok v => Except.ok v
      | .error e =>
          Except.error (.lambdaEx 400 ("Invalid Polygon area: " ++ pyMsg e))
    pure (circleExcl.toList ++ polyExcl.toList)

/-- lambda_handler.py lines 126-175, `get_exclusion_areas`: run the loop
body over the areas in request order, accumulating the resolved exclusion
geometries; the first failing area raises. -/
def get_exclusion_areas {Excl : Type} (o : GeomOps Excl) (areas : List Json)
    (geofences : List (String × Json)) : Except PyExc (List Excl) :=
  match areas with
  | [] => pure []
  | area :: rest => do
      let xs ← processArea o geofences area
      let tail ← get_exclusion_areas o rest geofences
      pure (xs ++ tail)

/-- lambda_handler.py lines 281-284 (and routing/__init__.py line 115,
prepare.py line 238): the reversed edge row swaps u and v and sets key to 1,
keeping the geometry column (the coordinates are NOT reversed) and the
length. -/
def reverseEdgeRow (e : Edge) : Edge := { e with u := e.v, v := e.u, key := 1 }

/-- `nodes.index.max()`: the largest node id of the static node table. -/
def maxNodeId (nodes : List Node) : ℕ := (nodes.map Node.osmid).foldl max 0

/-- lambda_handler.py lines 237-243, one row of `make_nodes`: an endpoint id
above the static maximum is a synthesized node whose coordinate is read from
the clipped geometry (`coords[0]` for u, `coords[-1]` for v) — an IndexError
when the clipped geometry is empty. -/
def uSideCoord (maxId : ℕ) (e : Edge) : Except PyExc (Option (ℕ × Coord)) :=
  if maxId < e.u then
    match e.geometry.head? with
    | some c => .ok (some (e.u, c))
    | none => .error (.err "IndexError" "tuple index out of range")
  else .ok none

/-- The v-side counterpart of `uSideCoord`. -/
def vSideCoord (maxId : ℕ) (e : Edge) : Except PyExc (Option (ℕ × Coord)) :=
  if maxId < e.v then
    match e.geometry.getLast? with
    | some c => .ok (some (e.v, c))
    | none => .error (.err "IndexError" "tuple index out of range")
  else .ok none

/-- lambda_handler.py lines 247-271: apply `make_nodes` to every edge row and
collect the u-side and v-side synthesized node rows. -/
def makeNodesPass (maxId : ℕ) : List Edge →
    Except PyExc (List (ℕ × Coord) × List (ℕ × Coord))
  | [] => .ok ([], [])
  | e :: rest => do
      let uo ← uSideCoord maxId e
      let vo ← vSideCoord maxId e
      let p ← makeNodesPass maxId rest
      pure (uo.toList ++ p.1, vo.toList ++ p.2)

/-- `drop_duplicates()` on the synthesized-node frame: its only column is the
geometry, so later rows with an already-seen coordinate are dropped. -/
def dedupByCoordAux (seen : List Coord) : List (ℕ × Coord) → List (ℕ × Coord)
  | [] => []
  | (i, c) :: rest =>
    if c ∈ seen then dedupByCoordAux seen rest
    else (i, c) :: dedupByCoordAux (c :: seen) rest

/-- Keep the first row per coordinate (pandas `drop_duplicates`). -/
def dedupByCoord (rows : List (ℕ × Coord)) : List (ℕ × Coord) :=
  dedupByCoordAux [] rows

/-- lambda_handler.py lines 206-229: the clipped and endpoint-remapped key=0
edge table of the Specializer branch of `handle` (lines 202-291), which
clips the key=0 edges and the nodes by the exclusion collection and remaps
endpoints of removed nodes to fresh ids. -/
def specializeKey0 {Excl : Type} (o : GeomOps Excl) (excl : List Excl)
    (nodes : List Node) (edges : List Edge) : List Edge :=
  let base := edges.filter fun e => e.key == 0
  let clipped := base.map fun e =>
    let g := o.diffLine excl e.geometry
    { e with geometry := g, length := round2 (o.utmLength g) }
  let removedIds := (nodes.filter fun n => o.pointErased excl n.point_geom).map Node.osmid
  let newIdx := remapTriples removedIds (maxNodeId nodes + 1)
    (clipped.map fun e => (e.u, e.v, e.key))
  (clipped.zip newIdx).map fun ec =>
    { ec.1 with u := ec.2.1, v := ec.2.2.1, key := ec.2.2.2 }

def specializeEdges {Excl : Type} (o : GeomOps Excl) (excl : List Excl)
    (nodes : List Node) (edges : List Edge) :
    Except PyExc (List Node × List Edge) := do
  let remapped := specializeKey0 o excl nodes edges
  let survivors := nodes.filter fun n => !(o.pointErased excl n.point_geom)
  let p ← makeNodesPass (maxNodeId nodes) remapped
  let newNodes := (dedupByCoord (p.1 ++ p.2)).map fun r =>
    Node.mk r.1 r.2.1 r.2.2 r.2
  let localNodes := survivors ++ newNodes
  let localEdges := remapped ++ remapped.map reverseEdgeRow
  pure (localNodes, localEdges)

/-- What `split_graph` produces: the id given to the target, the nodes and
edges added to the working graph `G`, and the concatenated edge table it
returns. -/
structure SplitResult where
  nodeId : ℕ
  newNodes : List Node
  allNewEdges : List Edge
  edgesOut : List Edge
deriving DecidableEq

/-- Lexicographic comparison of (u, v, key) index triples. -/
def lexLe3 (a b : ℕ × ℕ × ℕ) : Bool :=
  if a.1 < b.1 then true
  else if b.1 < a.1 then false
  else if a.2.1 < b.2.1 then true
  else if b.2.1 < a.2.1 then false
  else decide (a.2.2 ≤ b.2.2)

/-- Binary lexicographic maximum of index triples. -/
def lexPick (m t : ℕ × ℕ × ℕ) : ℕ × ℕ × ℕ := if lexLe3 m t then t else m

/-- `edges.index.max()` on the (u, v, key) MultiIndex: the lexicographic
maximum of the index triples ((0,0,0) only for the empty table, which raises
in pandas and never occurs here). -/
def indexLexMax (edges : List Edge) : ℕ × ℕ × ℕ :=
  match edges with
  | [] => (0, 0, 0)
  | e :: rest =>
      (rest.map fun e2 => (e2.u, e2.v, e2.key)).foldl lexPick (e.u, e.v, e.key)

/-- routing/__init__.py line 30: `max(edges.index.max()) + 1` — the largest
component of the lexicographically largest index triple, plus one. -/
def splitNodeId (edges : List Edge) : ℕ :=
  let t := indexLexMax edges
  max t.1 (max t.2.1 t.2.2) + 1

/-- routing/__init__.py lines 13-126, `split_graph`: find the nearest edge to
the target (spatial-join oracle), locate the foot of perpendicular, and
splice the target in: for an interior foot (0 < d < 1) three key=0 edges
(left substring, right substring, connector) plus an intermediate node at
the foot; for d ≤ 0 or d ≥ 1 a single connector from the matching endpoint.
Key=1 reverses are appended and the original edge table is kept whole. -/
def split_graph {Excl : Type} (o : GeomOps Excl) (target : Coord)
    (edges : List Edge) : SplitResult :=
  let edge := o.nearestEdge edges target
  let node_id := splitNodeId edges
  let targetNode : Node := ⟨node_id, target.1, target.2, target⟩
  let closest_line := edge.geometry
  let d := o.lineLocatePoint closest_line target
  let point_on_line := o.interpolate closest_line d
  let nn :=
    if 0 < d ∧ d < 1 then
      ([targetNode, ⟨node_id + 1, point_on_line.1, point_on_line.2, point_on_line⟩],
       [Edge.mk edge.u (node_id + 1) 0 (o.substring closest_line 0 d) 0,
        Edge.mk (node_id + 1) edge.v 0 (o.substring closest_line d 1) 0,
        Edge.mk (node_id + 1) node_id 0 [point_on_line, target] 0])
    else if d ≤ 0 then
      ([targetNode], [Edge.mk edge.u node_id 0 [point_on_line, target] 0])
    else
      ([targetNode], [Edge.mk edge.v node_id 0 [point_on_line, target] 0])
  let newEdges := nn.2.map fun e => { e with length := round2 (o.utmLength e.geometry) }
  let allNew := newEdges ++ newEdges.map reverseEdgeRow
  ⟨node_id, nn.1, allNew, edges ++ allNew⟩

/-- The static graph loaded at module import (lambda_handler.py lines
19-28). -/
structure StaticGraph where
  nodes : List Node
  edges : List Edge

/-- The CORS header present on every response. -/
def errHeaders : List (String × String) := [("Access-Control-Allow-Origin", "*")]

/-- The success headers (CORS plus the GeoJSON content type). -/
def okHeaders : List (String × String) :=
  [("Access-Control-Allow-Origin", "*"), ("Content-Type", "application/geo+json")]

/-- `json.dumps({"Error": message})`. -/
def errorBody (m : String) : String := "\x7b\"Error\": \"" ++ m ++ "\"\x7d"

/-- lambda_handler.py lines 179-322, the body of the `try` block of `handle`:
parse the request, resolve exclusion areas, specialize the graph when any
exist, splice origin and destination, and run the shortest path. -/
def handle_inner {Excl : Type} (o : GeomOps Excl) (g : StaticGraph)
    (event : Json) : Except PyExc Response := do
  let bodyRaw ← event.index "body"
  let bodyS ← bodyRaw.asStr
  let body ←
    match o.loads bodyS with
    | .ok j => Except.ok j
    | .error m => Except.error (.err "JSONDecodeError" m)
  let originJ ← body.index "Origin"
  let origin ← originJ.asPoint
  let destJ ← body.index "Destination"
  let destination ← destJ.asPoint
  let avoid ← body.get "Avoid" (.obj [])
  let areasJ ← avoid.get "Areas" (.arr [])
  let areas ← areasJ.asArr
  let geofences ← prefetch_geofences o areas
  let excl ← get_exclusion_areas o areas geofences
  let lg ←
    if excl.isEmpty then
      pure (g.nodes, g.edges)
    else
      specializeEdges o excl g.nodes g.edges
  let r1 := split_graph o origin lg.2
  let r2 := split_graph o destination r1.edgesOut
  let gNodes := lg.1 ++ r1.newNodes ++ r2.newNodes
  let gEdges := lg.2 ++ r1.allNewEdges ++ r2.allNewEdges
  match o.shortestPath gNodes gEdges r1.nodeId r2.nodeId with
  | none => Except.error (.lambdaEx 404 "No route found.")
  | some route => Except.ok ⟨200, okHeaders, o.routeJson gNodes gEdges route⟩

/-- lambda_handler.py lines 178-332, `handle`: run the request pipeline and
catch `LambdaException` — and only `LambdaException` — turning it into an
error envelope; any other exception propagates to the caller. -/
def handle {Excl : Type} (o : GeomOps Excl) (g : StaticGraph) (event : Json) :
    Except PyExc Response :=
  match handle_inner o g event with
  | .error (.lambdaEx status message) => .ok ⟨status, errHeaders, errorBody message⟩
  | r => r

/-! ### routing/routing/prepare.py: Edge Builder and Vertex Clusterer -/

/-- One row of the coordinate table built by `get_coords` (prepare.py lines
108-126): a vertex of one exploded line, with the line id, the position's
x/y, the whole line as a plain column, the terminal flag, and the vertex as
the active point geometry. -/
structure CoordRow where
  line_id : ℕ
  idx : ℕ
  x : ℚ
  y : ℚ
  geometry : Line
  terminal : Bool
deriving DecidableEq

/-- The point geometry column of a coordinate row (equals its x/y). -/
def CoordRow.point_geom (r : CoordRow) : Coord := (r.x, r.y)

/-- prepare.py lines 108-126, `get_coords`, applied to the exploded line list
(the `shapely.node(...).line_merge()` noding itself is a GEOS kernel and is
the caller's input here): every vertex of every line becomes a row. -/
def get_coords (lines : List Line) : List CoordRow :=
  lines.enum.flatMap fun li =>
    li.2.enum.map fun ci =>
      ⟨li.1, ci.1, ci.2.1, ci.2.2, li.2,
        decide (li.2.head? = some ci.2) || decide (li.2.getLast? = some ci.2)⟩

/-- Squared Euclidean distance, used to express the metric `dwithin`
predicate exactly over rationals. -/
def sqDist (a b : Coord) : ℚ := (a.1 - b.1) ^ 2 + (a.2 - b.2) ^ 2

/-- prepare.py lines 155-160: the `sjoin(..., predicate="dwithin",
distance=threshold)` pairs of coordinate rows and nodes whose projected
point geometries lie within the threshold (left rows in order, matches in
node-table order). -/
def dwithinPairs (proj : Coord → Coord) (threshold : ℚ)
    (coords : List CoordRow) (nodes : List Node) : List (CoordRow × Node) :=
  coords.flatMap fun c =>
    (nodes.filter fun n =>
      decide (sqDist (proj c.point_geom) (proj n.point_geom) ≤ threshold ^ 2)).map
      fun n => (c, n)

/-- prepare.py lines 195-201: one substitution
`(list(geometry.coords).index((x_left, y_left)), (x_right, y_right))` —
the first position of the row's coordinate in its line, replaced by the
joined node's coordinate. -/
def substitutionOf (p : CoordRow × Node) : ℕ × Coord :=
  (p.1.geometry.indexOf (p.1.x, p.1.y), (p.2.x, p.2.y))

/-- Insert into a sorted duplicate-free list of naturals. -/
def insertUniq (x : ℕ) : List ℕ → List ℕ
  | [] => [x]
  | y :: ys => if x < y then x :: y :: ys else if x = y then y :: ys else y :: insertUniq x ys

/-- `list(set(...))` over small ints: sorted unique values (CPython iterates
small-int sets in ascending order). -/
def sortedUniq (l : List ℕ) : List ℕ := l.foldr insertUniq []

/-- prepare.py lines 176-180: apply the substitutions `coords[i] = s`. -/
def applySubs (coords : List Coord) (subs : List (ℕ × Coord)) : List Coord :=
  subs.foldl (fun cs s => cs.set s.1 s.2) coords

/-- prepare.py lines 171-193, `fn`: substitute node coordinates into the
line and split it at the substitution positions (plus both ends); with only
two split positions the line is kept whole. -/
def segmentPieces (geom : Line) (subs : List (ℕ × Coord)) : List Line :=
  let coords := applySubs geom subs
  let splits := sortedUniq (0 :: subs.map Prod.fst ++ [geom.length - 1])
  if splits.length = 2 then [coords]
  else
    (List.range (splits.length - 1)).map fun i =>
      ((coords.drop (splits.getD i 0)).take (splits.getD (i + 1) 0 - splits.getD i 0 + 1))

/-- prepare.py lines 202-208: group the join pairs by line id (pandas sorts
the group keys), aggregate the substitution set (deduplicated, keeping each
first occurrence as the set model), apply `fn` and explode the pieces. -/
def segmentsOf (proj : Coord → Coord) (threshold : ℚ) (lines : List Line)
    (nodes : List Node) : List Line :=
  let pairs := dwithinPairs proj threshold (get_coords lines) nodes
  (sortedUniq (pairs.map fun p => p.1.line_id)).flatMap fun lid =>
    let lp := pairs.filter fun p => p.1.line_id == lid
    match lp.head? with
    | none => []
    | some p0 => segmentPieces p0.1.geometry ((lp.map substitutionOf).dedup)

/-- An edge row of `make_edges` before indexing: the endpoint node ids come
from exact-coordinate joins and can be missing (pandas NaN) when a segment
endpoint matches no node. -/
structure PEdge where
  u : Option ℕ
  v : Option ℕ
  key : ℕ
  geometry : Line
  length : ℚ
deriving DecidableEq

/-- The reversed row of prepare.py lines 238-240: u and v swapped, key set
to 1, geometry and length untouched. -/
def reversePEdgeRow (e : PEdge) : PEdge := { e with u := e.v, v := e.u, key := 1 }

/-- prepare.py lines 216-229: look a segment endpoint up in the node table
by exact x/y equality (node coordinates are unique after clustering). -/
def nodeAt (nodes : List Node) (c : Coord) : Option ℕ :=
  (nodes.find? fun n => decide (n.x = c.1) && decide (n.y = c.2)).map Node.osmid

/-- prepare.py lines 208-235: the forward (key=0) edge rows of `make_edges` —
segments joined to endpoint node ids by exact coordinates, self-edges
dropped (pandas `!=` keeps rows with NaN endpoints), rounded metric
lengths. -/
def makeEdgesForward (proj : Coord → Coord) (lines : List Line) (nodes : List Node)
    (utmLength : Line → ℚ) (threshold : ℚ) : List PEdge :=
  let segments := segmentsOf proj threshold lines nodes
  let forward := segments.map fun seg =>
    PEdge.mk (seg.head?.bind (nodeAt nodes)) (seg.getLast?.bind (nodeAt nodes)) 0 seg 0
  let kept := forward.filter fun e =>
    match e.u, e.v with
    | some a, some b => decide (a ≠ b)
    | _, _ => true
  kept.map fun e => { e with length := round2 (utmLength e.geometry) }

/-- prepare.py lines 146-245, `make_edges`: segment the (already noded and
merged) input lines at node positions, join endpoints to node ids, drop
self-edges, compute rounded metric lengths, and append the reversed (key=1)
rows (lines 237-243). -/
def make_edges (proj : Coord → Coord) (lines : List Line) (nodes : List Node)
    (utmLength : Line → ℚ) (threshold : ℚ) : List PEdge :=
  makeEdgesForward proj lines nodes utmLength threshold ++
    (makeEdgesForward proj lines nodes utmLength threshold).map reversePEdgeRow

/-- One row of the vertex table consumed by `cluster` (prepare.py lines
20-23): scalar x/y columns plus the active point geometry. -/
structure ClusterRow where
  x : ℚ
  y : ℚ
  point_geom : Coord
deriving DecidableEq

/-- The default row used for out-of-range table lookups (never reached for
well-formed cluster indices). -/
def dfltRow : ClusterRow := ⟨0, 0, (0, 0)⟩

/-- prepare.py lines 21-23: `coords.to_crs(intermediate_crs)` transforms the
active geometry column (`point_geom`) into the metric CRS; the scalar x and
y columns keep their geographic values. -/
def toCrsRows (proj : Coord → Coord) (rows : List ClusterRow) : List ClusterRow :=
  rows.map fun r => { r with point_geom := proj r.point_geom }

/-- Arithmetic mean of a list of rationals. -/
def qMean (xs : List ℚ) : ℚ := xs.sum / (xs.length : ℚ)

/-- prepare.py lines 68-78: each cluster's representative is the mean of its
members' x and y columns of the transformed table (which `to_crs` left at
their geographic values). -/
def clusterCentroids (transformed : List ClusterRow) (clusters : List (List ℕ)) :
    List Coord :=
  clusters.map fun members =>
    (qMean (members.map fun i => (transformed.getD i dfltRow).x),
     qMean (members.map fun i => (transformed.getD i dfltRow).y))

/-- prepare.py lines 81-83: the vertices belonging to no cluster keep their
x/y columns. -/
def nonClustered (transformed : List ClusterRow) (clusters : List (List ℕ)) :
    List Coord :=
  ((List.range transformed.length).filter fun i =>
      !(clusters.any fun c => i ∈ c)).map
    fun i => ((transformed.getD i dfltRow).x, (transformed.getD i dfltRow).y)

/-- Lexicographic comparison of coordinates, the `groupby(["x", "y"])` key
order. -/
def coordLexLe (a b : Coord) : Bool :=
  if a.1 < b.1 then true
  else if b.1 < a.1 then false
  else decide (a.2 ≤ b.2)

/-- Insert into a lexicographically sorted duplicate-free coordinate list. -/
def insertUniqCoord (x : Coord) : List Coord → List Coord
  | [] => [x]
  | y :: ys =>
    if x = y then y :: ys
    else if coordLexLe x y then x :: y :: ys
    else y :: insertUniqCoord x ys

/-- prepare.py lines 86-92: `groupby(by=["x", "y"])` of the concatenated
coordinate rows — the sorted list of distinct coordinates. -/
def sortedUniqCoords (l : List Coord) : List Coord := l.foldr insertUniqCoord []

/-- prepare.py lines 20-105, `cluster`, with the pair-building spatial join
(lines 25-66, a geopandas `sjoin_nearest` plus table grouping) abstracted
into the `clusters` partition of vertex indices: transform the table, take
the per-cluster mean of the x/y columns (one exploded row per member),
append the untouched non-clustered vertices, and emit one node per distinct
coordinate, giving it the coordinate as its 4326 point geometry (no inverse
projection is applied). -/
def clusterNodes (proj : Coord → Coord) (coords : List ClusterRow)
    (clusters : List (List ℕ)) : List Node :=
  let transformed := toCrsRows proj coords
  let centroids := clusterCentroids transformed clusters
  let allCoords :=
    ((clusters.zip centroids).flatMap fun mc => mc.1.map fun _ => mc.2) ++
      nonClustered transformed clusters
  (sortedUniqCoords allCoords).enum.map fun ic =>
    Node.mk ic.1 ic.2.1 ic.2.2 (ic.2.1, ic.2.2)

end Routing

end ByoMap

namespace ByoMap

namespace Routing

/-! ### Theorems about the Specializer's node remapping (claim C3) -/

/-- Number of endpoint occurrences (u then v per row) that belong to the
removed-node set. -/
def removedEndpointCount (removed : List ℕ) : List (ℕ × ℕ × ℕ) → ℕ
  | [] => 0
  | t :: rest =>
    (if t.1 ∈ removed then 1 else 0) + (if t.2.1 ∈ removed then 1 else 0) +
      removedEndpointCount removed rest

/-- The (original, resulting) endpoint id pairs of a remapping, u then v per
row. -/
def endpointPairs (ts rs : List (ℕ × ℕ × ℕ)) : List (ℕ × ℕ) :=
  (ts.zip rs).flatMap fun tr => [(tr.1.1, tr.2.1), (tr.1.2.1, tr.2.2.1)]

/-- The ids assigned to the removed endpoint occurrences, in scan order. -/
def replacedIds (removed : List ℕ) (ts rs : List (ℕ × ℕ × ℕ)) : List ℕ :=
  ((endpointPairs ts rs).filter fun p => p.1 ∈ removed).map Prod.snd

theorem replacedIds_cons (removed : List ℕ) (t r : ℕ × ℕ × ℕ)
    (ts rs : List (ℕ × ℕ × ℕ)) :
    replacedIds removed (t :: ts) (r :: rs) =
      (if t.1 ∈ removed then [r.1] else []) ++
      (if t.2.1 ∈ removed then [r.2.1] else []) ++ replacedIds removed ts rs := by
  by_cases h1 : t.1 ∈ removed <;> by_cases h2 : t.2.1 ∈ removed <;>
    simp [replacedIds, endpointPairs, h1, h2]

theorem range'_one_add (s n : ℕ) : List.range' s (1 + n) = s :: List.range' (s + 1) n := by
  rw [show 1 + n = n + 1 by omega, List.range'_succ]

theorem range'_two_add (s n : ℕ) :
    List.range' s (2 + n) = s :: (s + 1) :: List.range' (s + 2) n := by
  rw [show 2 + n = (n + 1) + 1 by omega, List.range'_succ, List.range'_succ]

theorem remap_replacedIds (removed : List ℕ) :
    ∀ (start : ℕ) (ts : List (ℕ × ℕ × ℕ)),
      replacedIds removed ts (remapTriples removed start ts) =
        List.range' start (removedEndpointCount removed ts) := by
  intro start ts
  induction ts generalizing start with
  | nil => rfl
  | cons t rest ih =>
      obtain ⟨u, v, k⟩ := t
      by_cases hu : u ∈ removed
      · by_cases hv : v ∈ removed
        · have hc : removedEndpointCount removed ((u, v, k) :: rest) =
              2 + removedEndpointCount removed rest := by
            simp only [removedEndpointCount, if_pos hu, if_pos hv]
          rw [hc, range'_two_add]
          simp only [remapTriples, if_pos hu, if_pos hv]
          rw [replacedIds_cons, if_pos hu, if_pos hv, ih]
          simp
        · have hc : removedEndpointCount removed ((u, v, k) :: rest) =
              1 + removedEndpointCount removed rest := by
            simp only [removedEndpointCount, if_pos hu, if_neg hv]
          rw [hc, range'_one_add]
          simp only [remapTriples, if_pos hu, if_neg hv]
          rw [replacedIds_cons, if_pos hu, if_neg hv, ih]
          simp
      · by_cases hv : v ∈ removed
        · have hc : removedEndpointCount removed ((u, v, k) :: rest) =
              1 + removedEndpointCount removed rest := by
            simp only [removedEndpointCount, if_neg hu, if_pos hv]
          rw [hc, range'_one_add]
          simp only [remapTriples, if_neg hu, if_pos hv]
          rw [replacedIds_cons, if_neg hu, if_pos hv, ih]
          simp
        · have hc : removedEndpointCount removed ((u, v, k) :: rest) =
              removedEndpointCount removed rest := by
            simp only [removedEndpointCount, if_neg hu, if_neg hv]
            omega
          rw [hc]
          simp only [remapTriples, if_neg hu, if_neg hv]
          rw [replacedIds_cons, if_neg hu, if_neg hv, ih]
          simp

theorem remap_untouched (removed : List ℕ) :
    ∀ (start : ℕ) (ts : List (ℕ × ℕ × ℕ)),
      ∀ tr ∈ ts.zip (remapTriples removed start ts),
        (tr.1.1 ∉ removed → tr.2.1 = tr.1.1) ∧
        (tr.1.2.1 ∉ removed → tr.2.2.1 = tr.1.2.1) ∧ tr.2.2.2 = tr.1.2.2 := by
  intro start ts
  induction ts generalizing start with
  | nil => intro tr htr; cases htr
  | cons t rest ih =>
      obtain ⟨u, v, k⟩ := t
      intro tr htr
      by_cases hu : u ∈ removed <;> by_cases hv : v ∈ removed <;>
        · simp only [remapTriples, if_pos, if_neg, hu, hv, ite_true, ite_false,
            List.zip_cons_cons, List.mem_cons] at htr
          rcases htr with rfl | htr'
          · refine ⟨?_, ?_, rfl⟩
            · intro h; first | rfl | exact absurd hu h
            · intro h; first | rfl | exact absurd hv h
          · exact ih _ tr htr'

theorem remapTriples_length (removed : List ℕ) :
    ∀ (start : ℕ) (ts : List (ℕ × ℕ × ℕ)),
      (remapTriples removed start ts).length = ts.length := by
  intro start ts
  induction ts generalizing start with
  | nil => rfl
  | cons t rest ih =>
      obtain ⟨u, v, k⟩ := t
      by_cases hu : u ∈ removed <;> by_cases hv : v ∈ removed <;>
        simp [remapTriples, hu, hv, ih]

/-- C3: `remap_missing_nodes`, invoked by `handle` with
`nodes.index.max() + 1`, reassigns exactly the endpoint occurrences whose id
is in the removed set: scanning u then v in row order, the k-th removed
occurrence receives id `maxNodeId nodes + 1 + k` (the list of assigned ids
is `range' (maxNodeId nodes + 1)` of the occurrence count, hence all ids are
fresh and pairwise distinct — two occurrences of the same removed id get two
different replacements), while endpoints outside the removed set and the key
component are unchanged and the table length is preserved. -/
theorem remap_missing_nodes_spec (removed : List ℕ) (nodes : List Node)
    (ts : List (ℕ × ℕ × ℕ)) :
    replacedIds removed ts (remapTriples removed (maxNodeId nodes + 1) ts) =
        List.range' (maxNodeId nodes + 1) (removedEndpointCount removed ts) ∧
      (replacedIds removed ts (remapTriples removed (maxNodeId nodes + 1) ts)).Nodup ∧
      (∀ i ∈ replacedIds removed ts (remapTriples removed (maxNodeId nodes + 1) ts),
        maxNodeId nodes < i) ∧
      (∀ tr ∈ ts.zip (remapTriples removed (maxNodeId nodes + 1) ts),
        (tr.1.1 ∉ removed → tr.2.1 = tr.1.1) ∧
        (tr.1.2.1 ∉ removed → tr.2.2.1 = tr.1.2.1) ∧ tr.2.2.2 = tr.1.2.2) ∧
      (remapTriples removed (maxNodeId nodes + 1) ts).length = ts.length := by
  refine ⟨remap_replacedIds removed _ ts, ?_, ?_,
    remap_untouched removed _ ts, remapTriples_length removed _ ts⟩
  · rw [remap_replacedIds removed _ ts]
    exact List.nodup_range' _ _
  · intro i hi
    rw [remap_replacedIds removed _ ts] at hi
    have := List.mem_range'_1.mp hi
    omega

/-! ### Theorems about the edge pairing (claim C1) -/

theorem remapTriples_keys (removed : List ℕ) :
    ∀ (start : ℕ) (ts : List (ℕ × ℕ × ℕ)),
      (remapTriples removed start ts).map (fun t => t.2.2) = ts.map fun t => t.2.2 := by
  intro start ts
  induction ts generalizing start with
  | nil => rfl
  | cons t rest ih =>
      obtain ⟨u, v, k⟩ := t
      by_cases hu : u ∈ removed <;> by_cases hv : v ∈ removed <;>
        simp [remapTriples, hu, hv, ih]

theorem makeEdgesForward_key (proj : Coord → Coord) (lines : List Line)
    (nodes : List Node) (utmLength : Line → ℚ) (threshold : ℚ) :
    ∀ e ∈ makeEdgesForward proj lines nodes utmLength threshold, e.key = 0 := by
  intro e he
  simp only [makeEdgesForward, List.mem_map] at he
  obtain ⟨e1, he1, rfl⟩ := he
  have h2 := (List.mem_filter.mp he1).1
  simp only [List.mem_map] at h2
  obtain ⟨seg, _, rfl⟩ := h2
  rfl

theorem specializeKey0_key {Excl : Type} (o : GeomOps Excl) (excl : List Excl)
    (nodes : List Node) (edges : List Edge) :
    ∀ e ∈ specializeKey0 o excl nodes edges, e.key = 0 := by
  intro e he
  simp only [specializeKey0, List.mem_map] at he
  obtain ⟨ec, hec, rfl⟩ := he
  have h2 := (List.of_mem_zip hec).2
  have h3 := List.mem_map_of_mem (fun t => t.2.2) h2
  rw [remapTriples_keys] at h3
  simp only [List.map_map, List.mem_map, Function.comp] at h3
  obtain ⟨b, hb, hk⟩ := h3
  have hb0 := (List.mem_filter.mp hb).2
  simp only [beq_iff_eq] at hb0
  simpa [hb0] using hk.symm

theorem pairing_concat_rev (l : List Edge) :
    ∀ e ∈ l ++ l.map reverseEdgeRow, e.key = 0 →
      ∃ e2 ∈ l ++ l.map reverseEdgeRow, e2.key = 1 ∧ e2.u = e.v ∧ e2.v = e.u ∧
        e2.geometry = e.geometry ∧ e2.length = e.length := by
  intro e he hkey
  rcases List.mem_append.mp he with h1 | h2
  · exact ⟨reverseEdgeRow e, List.mem_append.mpr (Or.inr (List.mem_map_of_mem _ h1)),
      rfl, rfl, rfl, rfl, rfl⟩
  · obtain ⟨e0, _, rfl⟩ := List.mem_map.mp h2
    simp [reverseEdgeRow] at hkey

theorem pairing_concat_revP (l : List PEdge) :
    ∀ e ∈ l ++ l.map reversePEdgeRow, e.key = 0 →
      ∃ e2 ∈ l ++ l.map reversePEdgeRow, e2.key = 1 ∧ e2.u = e.v ∧ e2.v = e.u ∧
        e2.geometry = e.geometry ∧ e2.length = e.length := by
  intro e he hkey
  rcases List.mem_append.mp he with h1 | h2
  · exact ⟨reversePEdgeRow e, List.mem_append.mpr (Or.inr (List.mem_map_of_mem _ h1)),
      rfl, rfl, rfl, rfl, rfl⟩
  · obtain ⟨e0, _, rfl⟩ := List.mem_map.mp h2
    simp [reversePEdgeRow] at hkey

theorem specializeEdges_ok {Excl : Type} (o : GeomOps Excl) (excl : List Excl)
    (nodes : List Node) (edges : List Edge) (ns : List Node) (es : List Edge)
    (h : specializeEdges o excl nodes edges = Except.ok (ns, es)) :
    es = specializeKey0 o excl nodes edges ++
      (specializeKey0 o excl nodes edges).map reverseEdgeRow := by
  unfold specializeEdges at h
  dsimp only at h
  cases hp : makeNodesPass (maxNodeId nodes) (specializeKey0 o excl nodes edges) with
  | error e =>
      rw [hp] at h
      simp only [bind, Except.bind] at h
      cases h
  | ok p =>
      rw [hp] at h
      simp only [bind, Except.bind, pure, Except.pure, Except.ok.injEq,
        Prod.mk.injEq] at h
      exact h.2.symm

/-- C1 (amended): for every key=0 edge (u, v) of a graph produced by
`make_edges` or by the Specializer branch of `handle`, there is a key=1 edge
(v, u) with the SAME geometry — the source swaps u and v and sets key to 1
without reversing the coordinate order (prepare.py lines 237-243,
lambda_handler.py lines 280-288) — and with equal length.  The coordinate
reversal asserted by the claim is refuted by `edge_pairing_not_reversed`. -/
theorem edge_pairing_same_geometry {Excl : Type} (o : GeomOps Excl)
    (proj : Coord → Coord) (lines : List Line) (pnodes nodes : List Node)
    (utmLen : Line → ℚ) (threshold : ℚ) (excl : List Excl) (edges : List Edge)
    (ns : List Node) (es : List Edge)
    (hspec : specializeEdges o excl nodes edges = Except.ok (ns, es)) :
    (∀ e ∈ make_edges proj lines pnodes utmLen threshold, e.key = 0 →
      ∃ e2 ∈ make_edges proj lines pnodes utmLen threshold,
        e2.key = 1 ∧ e2.u = e.v ∧ e2.v = e.u ∧ e2.geometry = e.geometry ∧
        e2.length = e.length) ∧
    (∀ e ∈ es, e.key = 0 →
      ∃ e2 ∈ es, e2.key = 1 ∧ e2.u = e.v ∧ e2.v = e.u ∧
        e2.geometry = e.geometry ∧ e2.length = e.length) := by
  constructor
  · intro e he hk
    simp only [make_edges] at he ⊢
    exact pairing_concat_revP _ e he hk
  · rw [specializeEdges_ok o excl nodes edges ns es hspec]
    intro e he hk
    exact pairing_concat_rev _ e he hk

/-- The fixture line of the C1 counterexample. -/
def cexLines : List Line := [[(0, 0), (50, 0), (50, 50)]]

/-- The fixture node table of the C1 counterexample. -/
def cexNodes : List Node := [⟨0, 0, 0, (0, 0)⟩, ⟨1, 50, 50, (50, 50)⟩]

/-- C1 counterexample: in the graph `make_edges` builds from one three-vertex
line (with the identity projection standing for the metric transform), the
single key=0 edge (0, 1) has NO key=1 companion with coordinate-reversed
geometry: the only key=1 edge (1, 0) carries the geometry in the original
coordinate order. -/
theorem edge_pairing_not_reversed :
    ¬ (∀ e ∈ make_edges id cexLines cexNodes (fun _ => 0) 5, e.key = 0 →
        ∃ e2 ∈ make_edges id cexLines cexNodes (fun _ => 0) 5,
          e2.key = 1 ∧ e2.u = e.v ∧ e2.v = e.u ∧
          e2.geometry = e.geometry.reverse ∧ e2.length = e.length) :=
  of_decide_eq_true (by with_unfolding_all rfl)

/-- Base instantiation of the external-kernel oracles at `Excl := Unit`. -/
def demoOps : GeomOps Unit where
  lineLocatePoint := fun _ _ => 1 / 2
  interpolate := fun _ _ => (0, 0)
  substring := fun l _ _ => l
  utmLength := fun _ => 0
  nearestEdge := fun edges _ => edges.headD ⟨0, 0, 0, [], 0⟩
  bufferCircle := fun _ _ => ()
  mkPolygon := fun _ => .ok ()
  diffLine := fun _ g => g
  pointErased := fun _ _ => false
  shortestPath := fun _ _ a b => some [a, b]
  routeJson := fun _ _ _ => ""
  loads := fun _ => .ok .null
  fetchGeofences := fun _ _ => .ok []

/-- A two-row edge table used by several concrete instances. -/
def demoEdges : List Edge :=
  [⟨1, 2, 0, [(0, 0), (3, 0), (3, 4)], 7⟩, ⟨2, 1, 1, [(0, 0), (3, 0), (3, 4)], 7⟩]

/-- A two-row node table matching `demoEdges`. -/
def demoNodes : List Node := [⟨1, 0, 0, (0, 0)⟩, ⟨2, 3, 4, (3, 4)⟩]

/-- Concrete instance of `edge_pairing_same_geometry` on the fixture tables:
the Specializer branch succeeds and both produced graphs satisfy the
same-geometry pairing. -/
theorem edge_pairing_same_geometry_witness :
    ∃ ns es, specializeEdges demoOps [()] demoNodes demoEdges = Except.ok (ns, es) ∧
      ((∀ e ∈ make_edges id cexLines cexNodes (fun _ => 0) 5, e.key = 0 →
        ∃ e2 ∈ make_edges id cexLines cexNodes (fun _ => 0) 5,
          e2.key = 1 ∧ e2.u = e.v ∧ e2.v = e.u ∧ e2.geometry = e.geometry ∧
          e2.length = e.length) ∧
      (∀ e ∈ es, e.key = 0 →
        ∃ e2 ∈ es, e2.key = 1 ∧ e2.u = e.v ∧ e2.v = e.u ∧
          e2.geometry = e.geometry ∧ e2.length = e.length)) := by
  obtain ⟨ns, es, h⟩ :
      ∃ ns es, specializeEdges demoOps [()] demoNodes demoEdges = Except.ok (ns, es) :=
    ⟨_, _, by with_unfolding_all rfl⟩
  exact ⟨ns, es, h, edge_pairing_same_geometry demoOps id cexLines cexNodes demoNodes
    (fun _ => 0) 5 [()] demoEdges ns es h⟩

/-! ### Theorems about the Splicer (claim C2) -/

theorem lexLe3_refl (a : ℕ × ℕ × ℕ) : lexLe3 a a = true := by
  simp [lexLe3]

theorem lexLe3_total (a b : ℕ × ℕ × ℕ) : lexLe3 a b = true ∨ lexLe3 b a = true := by
  unfold lexLe3
  rcases Nat.lt_trichotomy a.1 b.1 with h | h | h
  · left; simp [h]
  · rcases Nat.lt_trichotomy a.2.1 b.2.1 with h2 | h2 | h2
    · left; simp [h, Nat.lt_irrefl, show ¬ b.1 < a.1 by omega, h2]
    · rcases Nat.le_total a.2.2 b.2.2 with h3 | h3
      · left
        simp [show ¬ a.1 < b.1 by omega, show ¬ b.1 < a.1 by omega,
          show ¬ a.2.1 < b.2.1 by omega, show ¬ b.2.1 < a.2.1 by omega, h3]
      · right
        simp [show ¬ a.1 < b.1 by omega, show ¬ b.1 < a.1 by omega,
          show ¬ a.2.1 < b.2.1 by omega, show ¬ b.2.1 < a.2.1 by omega, h3]
    · right; simp [show ¬ b.1 < a.1 by omega, show ¬ a.1 < b.1 by omega, h2]
  · right; simp [h]

theorem lexLe3_trans (a b c : ℕ × ℕ × ℕ) (h1 : lexLe3 a b = true)
    (h2 : lexLe3 b c = true) : lexLe3 a c = true := by
  unfold lexLe3 at *
  by_cases hab : a.1 < b.1 <;> by_cases hbc : b.1 < c.1 <;>
    by_cases hab2 : a.2.1 < b.2.1 <;> by_cases hbc2 : b.2.1 < c.2.1 <;>
      simp_all <;> omega

theorem lexLe3_fst (a b : ℕ × ℕ × ℕ) (h : lexLe3 a b = true) : a.1 ≤ b.1 := by
  unfold lexLe3 at h
  by_cases h1 : a.1 < b.1
  · omega
  · by_cases h2 : b.1 < a.1
    · simp [h1, h2] at h
    · omega

theorem foldl_lexPick_spec (l : List (ℕ × ℕ × ℕ)) :
    ∀ (a : ℕ × ℕ × ℕ),
      (l.foldl lexPick a = a ∨ l.foldl lexPick a ∈ l) ∧
      lexLe3 a (l.foldl lexPick a) = true ∧
      ∀ x ∈ l, lexLe3 x (l.foldl lexPick a) = true := by
  induction l with
  | nil => intro a; simp [lexLe3_refl]
  | cons b bs ih =>
      intro a
      rw [List.foldl_cons]
      by_cases h : lexLe3 a b
      · obtain ⟨hmem, hself, hall⟩ := ih b
        rw [show lexPick a b = b from by simp [lexPick, h]]
        refine ⟨?_, lexLe3_trans _ _ _ h hself, ?_⟩
        · rcases hmem with h1 | h1
          · right; rw [h1]; exact List.mem_cons_self _ _
          · right; exact List.mem_cons_of_mem _ h1
        · intro x hx
          rcases List.mem_cons.mp hx with rfl | hx'
          · exact hself
          · exact hall x hx'
      · obtain ⟨hmem, hself, hall⟩ := ih a
        rw [show lexPick a b = a from by simp [lexPick, h]]
        refine ⟨?_, hself, ?_⟩
        · rcases hmem with h1 | h1
          · left; exact h1
          · right; exact List.mem_cons_of_mem _ h1
        · intro x hx
          rcases List.mem_cons.mp hx with rfl | hx'
          · rcases lexLe3_total x a with h2 | h2
            · exact lexLe3_trans _ _ _ h2 hself
            · exact absurd h2 h
          · exact hall x hx'

/-- Least upper bound of a list of naturals (0 for the empty list). -/
def natSup (l : List ℕ) : ℕ := l.foldr max 0

theorem le_natSup (l : List ℕ) (x : ℕ) (h : x ∈ l) : x ≤ natSup l := by
  induction l with
  | nil => cases h
  | cons a as ih =>
      rcases List.mem_cons.mp h with rfl | h'
      · exact le_max_left _ _
      · exact le_trans (ih h') (le_max_right _ _)

theorem natSup_le (l : List ℕ) (b : ℕ) (h : ∀ x ∈ l, x ≤ b) : natSup l ≤ b := by
  induction l with
  | nil => exact Nat.zero_le b
  | cons a as ih =>
      refine max_le (h a (List.mem_cons_self _ _)) (ih ?_)
      intro x hx
      exact h x (List.mem_cons_of_mem _ hx)

/-- The largest node id appearing as an edge endpoint. -/
def edgeIdSup (edges : List Edge) : ℕ :=
  max (natSup (edges.map Edge.u)) (natSup (edges.map Edge.v))

theorem indexLexMax_spec (edges : List Edge) (hne : edges ≠ []) :
    indexLexMax edges ∈ (edges.map fun e => (e.u, e.v, e.key)) ∧
      ∀ e ∈ edges, lexLe3 (e.u, e.v, e.key) (indexLexMax edges) = true := by
  cases edges with
  | nil => exact absurd rfl hne
  | cons e rest =>
      rw [show indexLexMax (e :: rest) =
        (rest.map fun e2 => (e2.u, e2.v, e2.key)).foldl lexPick (e.u, e.v, e.key) from rfl]
      obtain ⟨hmem, hself, hall⟩ :=
        foldl_lexPick_spec (rest.map fun e2 => (e2.u, e2.v, e2.key)) (e.u, e.v, e.key)
      constructor
      · rcases hmem with h1 | h1
        · rw [h1, List.map_cons]
          exact List.mem_cons_self _ _
        · rw [List.map_cons]
          exact List.mem_cons_of_mem _ h1
      · intro e2 he2
        rcases List.mem_cons.mp he2 with rfl | h2
        · exact hself
        · exact hall _ (List.mem_map_of_mem _ h2)

theorem splitNodeId_eq (edges : List Edge) (hne : edges ≠ [])
    (hpair : ∀ e ∈ edges, ∃ e2 ∈ edges, e2.u = e.v)
    (hkey : ∀ e ∈ edges, e.key ≤ 1) (hone : 1 ≤ edgeIdSup edges) :
    splitNodeId edges = edgeIdSup edges + 1 := by
  obtain ⟨hmem, hall⟩ := indexLexMax_spec edges hne
  simp only [List.mem_map] at hmem
  obtain ⟨e0, he0, het⟩ := hmem
  have hUle : natSup (edges.map Edge.u) ≤ (indexLexMax edges).1 := by
    refine natSup_le _ _ ?_
    intro x hx
    simp only [List.mem_map] at hx
    obtain ⟨e, he, rfl⟩ := hx
    exact lexLe3_fst _ _ (hall e he)
  have ht1le : (indexLexMax edges).1 ≤ natSup (edges.map Edge.u) := by
    rw [← het]
    exact le_natSup _ _ (List.mem_map_of_mem Edge.u he0)
  have hVle : natSup (edges.map Edge.v) ≤ natSup (edges.map Edge.u) := by
    refine natSup_le _ _ ?_
    intro x hx
    simp only [List.mem_map] at hx
    obtain ⟨e, he, rfl⟩ := hx
    obtain ⟨e2, he2, hu2⟩ := hpair e he
    exact hu2 ▸ le_natSup _ _ (List.mem_map_of_mem Edge.u he2)
  have ht21 : (indexLexMax edges).2.1 ≤ natSup (edges.map Edge.v) := by
    rw [← het]
    exact le_natSup _ _ (List.mem_map_of_mem Edge.v he0)
  have ht22 : (indexLexMax edges).2.2 ≤ 1 := by
    rw [← het]
    exact hkey e0 he0
  have hsup : edgeIdSup edges = natSup (edges.map Edge.u) := by
    unfold edgeIdSup
    omega
  unfold splitNodeId edgeIdSup
  unfold edgeIdSup at hone hsup
  dsimp only
  omega

/-- The foot of perpendicular computed by `split_graph` (the interpolation of
the nearest edge at the located normalized distance). -/
def splitFoot {Excl : Type} (o : GeomOps Excl) (target : Coord)
    (edges : List Edge) : Coord :=
  o.interpolate (o.nearestEdge edges target).geometry
    (o.lineLocatePoint (o.nearestEdge edges target).geometry target)

/-- C2: when the Splicer is handed a target whose normalized foot position d
on the nearest edge satisfies 0 < d < 1, it allocates the target id
N = max(existing endpoint ids) + 1 (under the forward/reverse pairing of a
produced graph every endpoint occurs as a u, so the edge-index maximum is
the id maximum), the intermediate id M = N + 1 sitting at the foot point F,
and adds exactly three key=0 edges — (u_orig, M, substring [0, d]),
(M, v_orig, substring [d, 1]) and (M, N, the straight segment F→T) — each
followed by its key=1 reverse, while the returned table keeps every original
edge, the split edge included. -/
theorem split_graph_interior_spec {Excl : Type} (o : GeomOps Excl)
    (target : Coord) (edges : List Edge)
    (hne : edges ≠ [])
    (hmem : o.nearestEdge edges target ∈ edges)
    (hpair : ∀ e ∈ edges, ∃ e2 ∈ edges, e2.u = e.v)
    (hkey : ∀ e ∈ edges, e.key ≤ 1)
    (hone : 1 ≤ edgeIdSup edges)
    (hd : 0 < o.lineLocatePoint (o.nearestEdge edges target).geometry target ∧
        o.lineLocatePoint (o.nearestEdge edges target).geometry target < 1) :
    (split_graph o target edges).nodeId = edgeIdSup edges + 1 ∧
    (split_graph o target edges).newNodes =
      [⟨(split_graph o target edges).nodeId, target.1, target.2, target⟩,
       ⟨(split_graph o target edges).nodeId + 1, (splitFoot o target edges).1,
        (splitFoot o target edges).2, splitFoot o target edges⟩] ∧
    (split_graph o target edges).allNewEdges =
      (let geom := (o.nearestEdge edges target).geometry
       let d := o.lineLocatePoint geom target
       let n := splitNodeId edges
       let left : Edge := ⟨(o.nearestEdge edges target).u, n + 1, 0, o.substring geom 0 d,
         round2 (o.utmLength (o.substring geom 0 d))⟩
       let right : Edge := ⟨n + 1, (o.nearestEdge edges target).v, 0, o.substring geom d 1,
         round2 (o.utmLength (o.substring geom d 1))⟩
       let conn : Edge := ⟨n + 1, n, 0, [splitFoot o target edges, target],
         round2 (o.utmLength [splitFoot o target edges, target])⟩
       [left, right, conn, reverseEdgeRow left, reverseEdgeRow right, reverseEdgeRow conn]) ∧
    (split_graph o target edges).edgesOut =
      edges ++ (split_graph o target edges).allNewEdges ∧
    o.nearestEdge edges target ∈ (split_graph o target edges).edgesOut := by
  have hid := splitNodeId_eq edges hne hpair hkey hone
  have hsg : split_graph o target edges =
      ⟨splitNodeId edges,
       [⟨splitNodeId edges, target.1, target.2, target⟩,
        ⟨splitNodeId edges + 1, (splitFoot o target edges).1,
         (splitFoot o target edges).2, splitFoot o target edges⟩],
       (let geom := (o.nearestEdge edges target).geometry
        let d := o.lineLocatePoint geom target
        let n := splitNodeId edges
        let left : Edge := ⟨(o.nearestEdge edges target).u, n + 1, 0, o.substring geom 0 d,
          round2 (o.utmLength (o.substring geom 0 d))⟩
        let right : Edge := ⟨n + 1, (o.nearestEdge edges target).v, 0, o.substring geom d 1,
          round2 (o.utmLength (o.substring geom d 1))⟩
        let conn : Edge := ⟨n + 1, n, 0, [splitFoot o target edges, target],
          round2 (o.utmLength [splitFoot o target edges, target])⟩
        [left, right, conn, reverseEdgeRow left, reverseEdgeRow right, reverseEdgeRow conn]),
       edges ++
        (let geom := (o.nearestEdge edges target).geometry
         let d := o.lineLocatePoint geom target
         let n := splitNodeId edges
         let left : Edge := ⟨(o.nearestEdge edges target).u, n + 1, 0, o.substring geom 0 d,
           round2 (o.utmLength (o.substring geom 0 d))⟩
         let right : Edge := ⟨n + 1, (o.nearestEdge edges target).v, 0, o.substring geom d 1,
           round2 (o.utmLength (o.substring geom d 1))⟩
         let conn : Edge := ⟨n + 1, n, 0, [splitFoot o target edges, target],
           round2 (o.utmLength [splitFoot o target edges, target])⟩
         [left, right, conn, reverseEdgeRow left, reverseEdgeRow right, reverseEdgeRow conn])⟩ := by
    unfold split_graph splitFoot
    dsimp only
    rw [if_pos hd]
    rfl
  rw [hsg]
  refine ⟨hid, rfl, rfl, rfl, ?_⟩
  exact List.mem_append.mpr (Or.inl hmem)

/-- Concrete instance of `split_graph_interior_spec` on the fixture table
(the demo locate oracle puts the foot at d = 1/2). -/
theorem split_graph_interior_spec_witness :
    (split_graph demoOps (5, 5) demoEdges).nodeId = edgeIdSup demoEdges + 1 ∧
    (split_graph demoOps (5, 5) demoEdges).edgesOut =
      demoEdges ++ (split_graph demoOps (5, 5) demoEdges).allNewEdges := by
  have h := split_graph_interior_spec demoOps (5, 5) demoEdges
    (by decide)
    (by with_unfolding_all decide)
    (by decide)
    (by decide)
    (by decide)
    ⟨of_decide_eq_true (by with_unfolding_all rfl),
     of_decide_eq_true (by with_unfolding_all rfl)⟩
  exact ⟨h.1, h.2.2.2.1⟩

/-! ### The Specializer on a wholly-excluded edge (claim C4) -/

/-- Oracles describing an exclusion collection that swallows the whole
graph: every line difference is empty and every node point is erased. -/
def coverAllOps : GeomOps Unit :=
  { demoOps with diffLine := fun _ _ => [], pointErased := fun _ _ => true }

/-- C4 (code bug): when a key=0 edge lies wholly inside the exclusion
collection — its clipped geometry becomes empty and both endpoint nodes are
erased — `handle`'s Specializer branch does not drop the edge.  Instead the
`make_nodes` step evaluates `coords[0]` of the empty clipped geometry of the
remapped edge and raises IndexError: the request crashes rather than
producing an edge table free of empty-geometry edges. -/
theorem specializer_covered_edge_crashes :
    specializeEdges coverAllOps [()] demoNodes demoEdges =
      Except.error (.err "IndexError" "tuple index out of range") := by
  with_unfolding_all rfl

/-! ### The exception behaviour of handle (claim C7) -/

/-- C7 (amended): `handle` catches exactly `LambdaException`: a raised
LambdaException is turned into an error envelope carrying its status, the
CORS header and the serialized Error body, while any other exception escapes
`handle` unchanged — there is no catch-all InternalError 500 mapping in the
function (the surrounding runtime would have to provide one). -/
theorem handle_catches_only_lambda_exceptions {Excl : Type} (o : GeomOps Excl)
    (g : StaticGraph) (event : Json) :
    (∀ status message,
      handle_inner o g event = Except.error (.lambdaEx status message) →
      handle o g event = Except.ok ⟨status, errHeaders, errorBody message⟩) ∧
    (∀ exc, handle o g event = Except.error exc →
      (∀ status message, exc ≠ PyExc.lambdaEx status message) ∧
        handle_inner o g event = Except.error exc) := by
  constructor
  · intro status message h
    unfold handle
    rw [h]
  · intro exc h
    unfold handle at h
    cases hi : handle_inner o g event with
    | ok r => rw [hi] at h; cases h
    | error e =>
        rw [hi] at h
        cases e with
        | lambdaEx s m => cases h
        | err k m =>
            cases h
            exact ⟨fun s m' hcon => PyExc.noConfusion hcon, rfl⟩

/-- C7 counterexample: an event whose body string parses to JSON `null`
makes `body["Origin"]` raise TypeError, and that exception escapes `handle`
— no InternalError 500 envelope is returned. -/
theorem handle_exception_escapes :
    handle demoOps ⟨demoNodes, demoEdges⟩ (.obj [("body", .str "\x7b\x7d")]) =
      Except.error (.err "TypeError" "object is not subscriptable") := by
  with_unfolding_all rfl

/-- Oracles whose `json.loads` yields a well-formed body and whose router
finds no path. -/
def demo404Ops : GeomOps Unit :=
  { demoOps with
    loads := fun _ => .ok (.obj
      [("Origin", .arr [.num 0, .num 0]), ("Destination", .arr [.num 1, .num 1])])
    shortestPath := fun _ _ _ _ => none }

/-- Concrete instance of `handle_catches_only_lambda_exceptions`: the
`NoRoute` LambdaException becomes a 404 envelope. -/
theorem handle_catches_only_lambda_exceptions_witness :
    handle demo404Ops ⟨demoNodes, demoEdges⟩ (.obj [("body", .str "\x7b\x7d")]) =
      Except.ok ⟨404, errHeaders, errorBody "No route found."⟩ :=
  (handle_catches_only_lambda_exceptions demo404Ops ⟨demoNodes, demoEdges⟩
      (.obj [("body", .str "\x7b\x7d")])).1 404 "No route found."
    (by with_unfolding_all rfl)

/-! ### Area validation (claim C8) -/

theorem processArea_count_error {Excl : Type} (o : GeomOps Excl)
    (gf : List (String × Json)) (bad a c p ar : Json)
    (hba : bad.get "Area" (.obj []) = Except.ok a)
    (hc : a.get "Circle" .null = Except.ok c)
    (hp : a.get "Polygon" .null = Except.ok p)
    (har : a.get "Arn" .null = Except.ok ar)
    (hbad : ([c, p, ar].filter Json.truthy).length ≠ 1) :
    processArea o gf bad = Except.error (.lambdaEx 400
      "Only one of \x7bCircle, Polygon, Arn\x7d may be provided per Area.") := by
  unfold processArea
  rw [hba]
  simp only [bind, Except.bind]
  rw [hc]
  simp only [bind, Except.bind]
  rw [hp]
  simp only [bind, Except.bind]
  rw [har]
  simp only [bind, Except.bind]
  rw [if_pos hbad]

theorem gea_cons_error {Excl : Type} (o : GeomOps Excl)
    (gf : List (String × Json)) (area : Json) (rest : List Json) (exc : PyExc)
    (h : processArea o gf area = Except.error exc) :
    get_exclusion_areas o (area :: rest) gf = Except.error exc := by
  unfold get_exclusion_areas
  rw [h]
  rfl

theorem gea_append_error {Excl : Type} (o : GeomOps Excl)
    (gf : List (String × Json)) (pre rest2 : List Json) (l : List Excl) (exc : PyExc)
    (hpre : get_exclusion_areas o pre gf = Except.ok l)
    (herr : get_exclusion_areas o rest2 gf = Except.error exc) :
    get_exclusion_areas o (pre ++ rest2) gf = Except.error exc := by
  induction pre generalizing l with
  | nil => simpa using herr
  | cons x xs ih =>
      rw [show get_exclusion_areas o (x :: xs) gf = (do
            let ys ← processArea o gf x
            let tail ← get_exclusion_areas o xs gf
            pure (ys ++ tail)) from rfl] at hpre
      rw [List.cons_append,
        show get_exclusion_areas o (x :: (xs ++ rest2)) gf = (do
            let ys ← processArea o gf x
            let tail ← get_exclusion_areas o (xs ++ rest2) gf
            pure (ys ++ tail)) from rfl]
      cases hx : processArea o gf x with
      | error e =>
          rw [hx] at hpre
          simp only [bind, Except.bind] at hpre
          cases hpre
      | ok ys =>
          rw [hx] at hpre
          simp only [bind, Except.bind] at hpre ⊢
          cases hrec : get_exclusion_areas o xs gf with
          | error e =>
              rw [hrec] at hpre
              cases hpre
          | ok l2 =>
              rw [ih l2 hrec]

/-- C8 (amended): when the request parses (body string, Origin, Destination,
Avoid.Areas), the geofence prefetch succeeds, every area before the faulty
one resolves without error, and the first faulty area is one specifying
zero or more than one of Circle / Polygon / Arn, then `handle` returns a 400
envelope whose body is exactly the `Only one of {Circle, Polygon, Arn}`
message — and it does so for EVERY static graph, i.e. before any graph
manipulation.  An earlier area failing differently preempts this response
(see `invalid_area_not_always_400_message`). -/
theorem invalid_area_spec {Excl : Type} (o : GeomOps Excl) (event : Json)
    (s : String) (body : Json) (areas pre rest : List Json) (bad : Json)
    (gf : List (String × Json)) (op dp : Coord) (oj dj aj arj : Json)
    (l : List Excl) (a c p ar : Json)
    (hb : event.index "body" = Except.ok (.str s))
    (hl : o.loads s = Except.ok body)
    (ho : body.index "Origin" = Except.ok oj)
    (hop : oj.asPoint = Except.ok op)
    (hdj : body.index "Destination" = Except.ok dj)
    (hdp : dj.asPoint = Except.ok dp)
    (hav : body.get "Avoid" (.obj []) = Except.ok aj)
    (har2 : aj.get "Areas" (.arr []) = Except.ok arj)
    (haa : arj.asArr = Except.ok areas)
    (hsplit : areas = pre ++ bad :: rest)
    (hgf : prefetch_geofences o areas = Except.ok gf)
    (hpre : get_exclusion_areas o pre gf = Except.ok l)
    (hba : bad.get "Area" (.obj []) = Except.ok a)
    (hc : a.get "Circle" .null = Except.ok c)
    (hp : a.get "Polygon" .null = Except.ok p)
    (har : a.get "Arn" .null = Except.ok ar)
    (hbad : ([c, p, ar].filter Json.truthy).length ≠ 1) :
    ∀ g : StaticGraph, handle o g event =
      Except.ok ⟨400, errHeaders,
        errorBody "Only one of \x7bCircle, Polygon, Arn\x7d may be provided per Area."⟩ := by
  intro g
  have h400 : get_exclusion_areas o areas gf = Except.error (.lambdaEx 400
      "Only one of \x7bCircle, Polygon, Arn\x7d may be provided per Area.") := by
    rw [hsplit]
    exact gea_append_error o gf pre (bad :: rest) l _ hpre
      (gea_cons_error o gf bad rest _
        (processArea_count_error o gf bad a c p ar hba hc hp har hbad))
  have hinner : handle_inner o g event = Except.error (.lambdaEx 400
      "Only one of \x7bCircle, Polygon, Arn\x7d may be provided per Area.") := by
    unfold handle_inner
    rw [hb]
    simp only [bind, Except.bind, Json.asStr]
    rw [hl]
    simp only [bind, Except.bind]
    rw [ho]
    simp only [bind, Except.bind]
    rw [hop]
    simp only [bind, Except.bind]
    rw [hdj]
    simp only [bind, Except.bind]
    rw [hdp]
    simp only [bind, Except.bind]
    rw [hav]
    simp only [bind, Except.bind]
    rw [har2]
    simp only [bind, Except.bind]
    rw [haa]
    simp only [bind, Except.bind]
    rw [hgf]
    simp only [bind, Except.bind]
    rw [h400]
  unfold handle
  rw [hinner]

/-- The body of a request whose only area carries both a Circle and a
Polygon. -/
def areaDouble : Json := .obj [("Area", .obj
  [("Circle", .obj [("Center", .arr [.num 0, .num 0]), ("Radius", .num 1)]),
   ("Polygon", .arr [.arr []])])]

/-- An area whose Circle is truthy but lacks the Radius key. -/
def areaBadCircle : Json :=
  .obj [("Area", .obj [("Circle", .obj [("Center", .arr [.num 0, .num 0])])])]

/-- Request body listing the malformed circle area before the
double-geometry area. -/
def bodyC8 : Json := .obj
  [("Origin", .arr [.num 0, .num 0]), ("Destination", .arr [.num 1, .num 1]),
   ("Avoid", .obj [("Areas", .arr [areaBadCircle, areaDouble])])]

/-- Oracles whose `json.loads` yields `bodyC8`. -/
def opsC8 : GeomOps Unit := { demoOps with loads := fun _ => .ok bodyC8 }

/-- C8 counterexample: the request contains an area (`areaDouble`) that
specifies two of Circle / Polygon / Arn — the validator itself classifies it
with the 400 message — yet `handle` answers with a different error body,
because the earlier malformed circle area raises first.  So the claimed
response is not produced for every request containing such an area. -/
theorem invalid_area_not_always_400_message :
    processArea opsC8 [] areaDouble = Except.error (.lambdaEx 400
      "Only one of \x7bCircle, Polygon, Arn\x7d may be provided per Area.") ∧
    handle opsC8 ⟨demoNodes, demoEdges⟩ (.obj [("body", .str "x")]) =
      Except.ok ⟨400, errHeaders, errorBody "Invalid Circle area: 'Radius'"⟩ ∧
    errorBody "Invalid Circle area: 'Radius'" ≠
      errorBody "Only one of \x7bCircle, Polygon, Arn\x7d may be provided per Area." := by
  refine ⟨rfl, by with_unfolding_all rfl, by decide⟩

/-- Request body whose single area is the double-geometry one. -/
def bodyC8single : Json := .obj
  [("Origin", .arr [.num 0, .num 0]), ("Destination", .arr [.num 1, .num 1]),
   ("Avoid", .obj [("Areas", .arr [areaDouble])])]

/-- Oracles whose `json.loads` yields `bodyC8single`. -/
def opsC8single : GeomOps Unit := { demoOps with loads := fun _ => .ok bodyC8single }

/-- Concrete instance of `invalid_area_spec`: with the double-geometry area
first, `handle` produces exactly the claimed 400 envelope. -/
theorem invalid_area_spec_witness :
    handle opsC8single ⟨demoNodes, demoEdges⟩ (.obj [("body", .str "x")]) =
      Except.ok ⟨400, errHeaders,
        errorBody "Only one of \x7bCircle, Polygon, Arn\x7d may be provided per Area."⟩ :=
  invalid_area_spec opsC8single (.obj [("body", .str "x")]) "x" bodyC8single
    [areaDouble] [] [] areaDouble [] (0, 0) (1, 1)
    (.arr [.num 0, .num 0]) (.arr [.num 1, .num 1])
    (.obj [("Areas", .arr [areaDouble])]) (.arr [areaDouble]) []
    (.obj [("Circle", .obj [("Center", .arr [.num 0, .num 0]), ("Radius", .num 1)]),
      ("Polygon", .arr [.arr []])])
    (.obj [("Center", .arr [.num 0, .num 0]), ("Radius", .num 1)])
    (.arr [.arr []]) .null
    rfl rfl rfl rfl rfl rfl rfl rfl rfl rfl rfl rfl rfl rfl rfl rfl
    (by decide) ⟨demoNodes, demoEdges⟩

/-! ### The Vertex Clusterer's representatives (claim C5) -/

theorem mem_insertUniqCoord (x a : Coord) (l : List Coord) :
    a ∈ insertUniqCoord x l ↔ a = x ∨ a ∈ l := by
  induction l with
  | nil => simp [insertUniqCoord]
  | cons y ys ih =>
      rw [show insertUniqCoord x (y :: ys) =
        (if x = y then y :: ys else if coordLexLe x y then x :: y :: ys
          else y :: insertUniqCoord x ys) from rfl]
      by_cases h1 : x = y
      · rw [if_pos h1]
        subst h1
        simp only [List.mem_cons]
        tauto
      · rw [if_neg h1]
        by_cases h2 : coordLexLe x y
        · rw [if_pos h2]
          simp only [List.mem_cons]
        · rw [if_neg h2]
          simp only [List.mem_cons, ih]
          tauto

theorem zip_map_self {α β : Type} (f : α → β) (l : List α) :
    l.zip (l.map f) = l.map fun a => (a, f a) := by
  induction l with
  | nil => rfl
  | cons x xs ih => simp [ih]

theorem mem_sortedUniqCoords (l : List Coord) (a : Coord) :
    a ∈ sortedUniqCoords l ↔ a ∈ l := by
  induction l with
  | nil => simp [sortedUniqCoords]
  | cons x xs ih =>
      show a ∈ insertUniqCoord x (sortedUniqCoords xs) ↔ _
      rw [mem_insertUniqCoord, ih]
      simp

theorem toCrsRows_getD (proj : Coord → Coord) (coords : List ClusterRow) (i : ℕ) :
    ((toCrsRows proj coords).getD i dfltRow).x = (coords.getD i dfltRow).x ∧
    ((toCrsRows proj coords).getD i dfltRow).y = (coords.getD i dfltRow).y := by
  induction coords generalizing i with
  | nil => exact ⟨rfl, rfl⟩
  | cons c cs ih =>
      cases i with
      | zero => exact ⟨rfl, rfl⟩
      | succ n => exact ih n

theorem clusterCentroids_toCrs (proj : Coord → Coord) (coords : List ClusterRow)
    (clusters : List (List ℕ)) :
    clusterCentroids (toCrsRows proj coords) clusters =
      clusterCentroids coords clusters := by
  unfold clusterCentroids
  refine List.map_congr_left fun members _ => ?_
  have hx : (members.map fun i => ((toCrsRows proj coords).getD i dfltRow).x) =
      members.map fun i => (coords.getD i dfltRow).x :=
    List.map_congr_left fun i _ => (toCrsRows_getD proj coords i).1
  have hy : (members.map fun i => ((toCrsRows proj coords).getD i dfltRow).y) =
      members.map fun i => (coords.getD i dfltRow).y :=
    List.map_congr_left fun i _ => (toCrsRows_getD proj coords i).2
  rw [hx, hy]

theorem nonClustered_toCrs (proj : Coord → Coord) (coords : List ClusterRow)
    (clusters : List (List ℕ)) :
    nonClustered (toCrsRows proj coords) clusters = nonClustered coords clusters := by
  unfold nonClustered
  rw [show (toCrsRows proj coords).length = coords.length from List.length_map _ _]
  refine List.map_congr_left fun i _ => ?_
  rw [(toCrsRows_getD proj coords i).1, (toCrsRows_getD proj coords i).2]

theorem clusterNodes_proj_irrel (proj proj2 : Coord → Coord)
    (coords : List ClusterRow) (clusters : List (List ℕ)) :
    clusterNodes proj coords clusters = clusterNodes proj2 coords clusters := by
  unfold clusterNodes
  dsimp only
  rw [clusterCentroids_toCrs proj, clusterCentroids_toCrs proj2,
    nonClustered_toCrs proj, nonClustered_toCrs proj2]

theorem exists_enumFrom_pair {α : Type} (L : List α) (a : α) (ha : a ∈ L) :
    ∀ k, ∃ p ∈ List.enumFrom k L, p.2 = a := by
  induction L with
  | nil => cases ha
  | cons x xs ih =>
      intro k
      rcases List.mem_cons.mp ha with rfl | h'
      · exact ⟨(k, a), List.mem_cons_self _ _, rfl⟩
      · obtain ⟨p, hp, hp2⟩ := ih h' (k + 1)
        exact ⟨p, List.mem_cons_of_mem _ hp, hp2⟩

/-- Membership in the node table built by `clusterNodes` from a coordinate of
the concatenated table. -/
theorem clusterNodes_mem_of_coord (proj : Coord → Coord) (coords : List ClusterRow)
    (clusters : List (List ℕ)) (val : Coord)
    (hval : val ∈
      ((clusters.zip (clusterCentroids (toCrsRows proj coords) clusters)).flatMap
        fun mc => mc.1.map fun _ => mc.2) ++ nonClustered (toCrsRows proj coords) clusters) :
    ∃ nd ∈ clusterNodes proj coords clusters,
      nd.x = val.1 ∧ nd.y = val.2 ∧ nd.point_geom = (val.1, val.2) := by
  have h2 := (mem_sortedUniqCoords _ val).mpr hval
  obtain ⟨p, hp, hp2⟩ := exists_enumFrom_pair _ val h2 0
  refine ⟨⟨p.1, val.1, val.2, (val.1, val.2)⟩, ?_, rfl, rfl, rfl⟩
  unfold clusterNodes
  dsimp only
  refine List.mem_map.mpr ⟨p, hp, ?_⟩
  rw [hp2]

/-- C5 (amended): the Vertex Clusterer represents every nonempty cluster by
the arithmetic mean of its members' geographic x/y columns — `to_crs` only
transforms the point-geometry column, so the averaged columns keep their
geographic values and the result is declared in EPSG:4326 without any
re-projection — every non-clustered vertex keeps its original coordinate,
and the metric projection has no influence whatsoever on the produced node
table. -/
theorem cluster_representative_spec (proj : Coord → Coord)
    (coords : List ClusterRow) (clusters : List (List ℕ)) :
    (∀ c ∈ clusters, c ≠ [] →
      ∃ nd ∈ clusterNodes proj coords clusters,
        nd.x = qMean (c.map fun i => (coords.getD i dfltRow).x) ∧
        nd.y = qMean (c.map fun i => (coords.getD i dfltRow).y) ∧
        nd.point_geom = (nd.x, nd.y)) ∧
    (∀ i, i < coords.length → (∀ c ∈ clusters, i ∉ c) →
      ∃ nd ∈ clusterNodes proj coords clusters,
        nd.x = (coords.getD i dfltRow).x ∧ nd.y = (coords.getD i dfltRow).y ∧
        nd.point_geom = (nd.x, nd.y)) ∧
    (∀ proj2, clusterNodes proj2 coords clusters = clusterNodes proj coords clusters) := by
  refine ⟨?_, ?_, fun proj2 => clusterNodes_proj_irrel proj2 proj coords clusters⟩
  · intro c hc hne
    obtain ⟨m, hm⟩ := List.exists_mem_of_ne_nil c hne
    have hzip : (c, (qMean (c.map fun i => ((toCrsRows proj coords).getD i dfltRow).x),
        qMean (c.map fun i => ((toCrsRows proj coords).getD i dfltRow).y)))
        ∈ clusters.zip (clusterCentroids (toCrsRows proj coords) clusters) := by
      rw [show clusterCentroids (toCrsRows proj coords) clusters =
          clusters.map (fun members =>
            (qMean (members.map fun i => ((toCrsRows proj coords).getD i dfltRow).x),
             qMean (members.map fun i => ((toCrsRows proj coords).getD i dfltRow).y)))
          from rfl]
      rw [zip_map_self]
      exact List.mem_map_of_mem _ hc
    have hflat : (qMean (c.map fun i => ((toCrsRows proj coords).getD i dfltRow).x),
        qMean (c.map fun i => ((toCrsRows proj coords).getD i dfltRow).y)) ∈
        ((clusters.zip (clusterCentroids (toCrsRows proj coords) clusters)).flatMap
          fun mc => mc.1.map fun _ => mc.2) :=
      List.mem_flatMap.mpr ⟨_, hzip, List.mem_map_of_mem _ hm⟩
    obtain ⟨nd, hnd, hx, hy, hpg⟩ := clusterNodes_mem_of_coord proj coords clusters _
      (List.mem_append.mpr (Or.inl hflat))
    refine ⟨nd, hnd, ?_, ?_, ?_⟩
    · rw [hx]
      exact congrArg qMean (List.map_congr_left fun i _ => (toCrsRows_getD proj coords i).1)
    · rw [hy]
      exact congrArg qMean (List.map_congr_left fun i _ => (toCrsRows_getD proj coords i).2)
    · rw [hpg, hx, hy]
  · intro i hi hnotin
    have hfil : i ∈ (List.range (toCrsRows proj coords).length).filter
        (fun j => !(clusters.any fun c => j ∈ c)) := by
      refine List.mem_filter.mpr ⟨?_, ?_⟩
      · rw [show (toCrsRows proj coords).length = coords.length from List.length_map _ _]
        exact List.mem_range.mpr hi
      · simp only [Bool.not_eq_true', List.any_eq_false]
        intro c hcmem
        simpa using hnotin c hcmem
    have hmemnc : (((toCrsRows proj coords).getD i dfltRow).x,
        ((toCrsRows proj coords).getD i dfltRow).y) ∈
        nonClustered (toCrsRows proj coords) clusters :=
      List.mem_map_of_mem _ hfil
    obtain ⟨nd, hnd, hx, hy, hpg⟩ := clusterNodes_mem_of_coord proj coords clusters _
      (List.mem_append.mpr (Or.inr hmemnc))
    refine ⟨nd, hnd, ?_, ?_, ?_⟩
    · rw [hx, (toCrsRows_getD proj coords i).1]
    · rw [hy, (toCrsRows_getD proj coords i).2]
    · rw [hpg, hx, hy]

/-- The metric projection of the C5 counterexample (a sheared, exactly
invertible map standing in for the UTM transform). -/
def projDemo (c : Coord) : Coord := (c.1 + c.2 * c.2, c.2)

/-- The exact inverse of `projDemo`. -/
def invProjDemo (c : Coord) : Coord := (c.1 - c.2 * c.2, c.2)

/-- The two-vertex coordinate table of the C5 counterexample. -/
def cexClusterRows : List ClusterRow := [⟨0, 0, (0, 0)⟩, ⟨0, 2, (0, 2)⟩]

/-- C5 counterexample: with `projDemo`/`invProjDemo` a genuine metric
projection pair, the cluster of the two vertices (0,0) and (0,2) would have
to be represented by `invProj (mean (proj members)) = (1, 1)` according to
the claim; the cluster stage instead emits the geographic mean (0, 1) —
no node of the produced table carries the claimed coordinate. -/
theorem cluster_centroid_not_reprojected :
    invProjDemo (projDemo (0, 0)) = ((0 : ℚ), (0 : ℚ)) ∧
    invProjDemo (projDemo (0, 2)) = ((0 : ℚ), (2 : ℚ)) ∧
    ¬ ∃ nd ∈ clusterNodes projDemo cexClusterRows [[0, 1]],
        (nd.x, nd.y) = invProjDemo
          (qMean [(projDemo (0, 0)).1, (projDemo (0, 2)).1],
           qMean [(projDemo (0, 0)).2, (projDemo (0, 2)).2]) :=
  of_decide_eq_true (by with_unfolding_all rfl)

/-- Concrete instance of `cluster_representative_spec`: the cluster of both
fixture vertices is represented by the geographic mean, and the projection
has no effect on the node table. -/
theorem cluster_representative_spec_witness :
    (∃ nd ∈ clusterNodes projDemo cexClusterRows [[0, 1]],
      nd.x = qMean ([0, 1].map fun i => (cexClusterRows.getD i dfltRow).x) ∧
      nd.y = qMean ([0, 1].map fun i => (cexClusterRows.getD i dfltRow).y) ∧
      nd.point_geom = (nd.x, nd.y)) ∧
    clusterNodes (fun c => c) cexClusterRows [[0, 1]] =
      clusterNodes projDemo cexClusterRows [[0, 1]] := by
  refine ⟨(cluster_representative_spec projDemo cexClusterRows [[0, 1]]).1 [0, 1]
      (by decide) (by decide), ?_⟩
  exact (cluster_representative_spec projDemo cexClusterRows [[0, 1]]).2.2 (fun c => c)

end Routing

end ByoMap
